import Mathlib

/-!
# Verification of the cargo-tree dependency-tree renderer

Shallow embedding of the core of `cargo-tree` (graph construction, duplicate
detection, root-query resolution and the tree renderer) together with proofs
about the embedded functions.

Two generations of the renderer coexist in the sources and are both embedded:

* the `tree.rs` renderer (`print`, `find_package`, `find_duplicates`,
  `print_tree`, `print_package`, `print_dependencies`), which truncates
  revisits with a visited set threaded through the traversal, and
* the `main.rs` renderer (`build_graph`, `find_duplicates`, `print_tree`,
  `print_dependency`, `print_dependency_kind`), which supports a depth limit
  and truncates using the `is_duplicate` / `depth_first_seen` bookkeeping
  computed by `build_graph`.

Recursion in the Rust code is unbounded; the embedding makes it total with an
explicit fuel argument (`none` = fuel exhausted), decremented on every
recursive descent into a package.  Printing to stdout is modelled by returning
the list of emitted lines; a line is represented abstractly as its prefix
string (the box-drawing part), its label (produced by the format pattern,
which is an external collaborator and is passed in as a function), and the
presence of the ` (*)` truncation star, so that every printed character is
recoverable from the representation.
-/

namespace CargoTree

/-- `cargo::core::dependency::Kind` / `cargo_metadata::DependencyKind`:
the closed enumeration of dependency kinds. -/
inductive DependencyKind where
  | normal
  | build
  | development
deriving DecidableEq, Repr

/-- `EdgeDirection` from petgraph: traversal direction chosen by the
`--invert` / `--duplicates` flags. -/
inductive EdgeDirection where
  | incoming
  | outgoing
deriving DecidableEq, Repr

/-- A semantic version, as compared by the `semver` crate (pre-release and
build metadata are not exercised by this code base and are omitted). -/
structure Version where
  major : Nat
  minor : Nat
  patch : Nat
deriving DecidableEq, Repr

/-- `semver` ordering: lexicographic on (major, minor, patch). -/
def Version.lt (a b : Version) : Bool :=
  a.major < b.major ||
    (a.major == b.major &&
      (a.minor < b.minor || (a.minor == b.minor && a.patch < b.patch)))

/-- Rendering of a version, as `Display` for `semver::Version` produces it. -/
def Version.toStr (v : Version) : String :=
  toString v.major ++ "." ++ toString v.minor ++ "." ++ toString v.patch

/-- The `Symbols` table of `tree.rs` / `main.rs`: the four connector glyphs
used by the `Indent` prefix style. -/
structure Symbols where
  down : String
  tee : String
  ell : String
  right : String

/-- `UTF8_SYMBOLS`. -/
def UTF8_SYMBOLS : Symbols :=
  { down := "│", tee := "├", ell := "└", right := "─" }

/-- `ASCII_SYMBOLS`. -/
def ASCII_SYMBOLS : Symbols :=
  { down := "|", tee := "|", ell := "`", right := "-" }

/-- The `Prefix` enumeration selecting the line-prefix style. -/
inductive PrefixStyle where
  | noIndent
  | indent
  | depth
deriving DecidableEq, Repr

/-- One line of output.  The renderer prints, per line, a prefix (connector
glyphs or the numeric depth), then either a package label followed by an
optional ` (*)` star, or a `[build-dependencies]` / `[dev-dependencies]`
group header. -/
inductive Line where
  | pkg (pre : String) (label : String) (star : Bool)
  | header (pre : String) (name : String)
deriving DecidableEq, Repr

/-- The prefix printed in front of a package line by `print_package`
(`tree.rs`): nothing for `Prefix::None`, the stack depth for
`Prefix::Depth`, and the box-drawing connectors derived from
`levels_continue` for `Prefix::Indent` (one `down`-or-blank column per
ancestor, then tee/ell plus two `right` glyphs and a space for the last
level; the root, with empty `levels_continue`, gets no connectors). -/
def concatStrs : List String → String
  | [] => ""
  | s :: rest => s ++ concatStrs rest

/-- One ancestor column: the `down` glyph if a later sibling remains at that
level, else a blank, followed by three spaces. -/
def continuesColumn (symbols : Symbols) (continues : Bool) : String :=
  (if continues then symbols.down else " ") ++ "   "

def digitChar (d : Nat) : Char := Char.ofNat (48 + d)

/-- Decimal digits of `n`, most significant first; the first argument is
fuel (`n` itself always suffices). -/
def natDigits : Nat → Nat → List Char
  | 0, _ => []
  | fuel + 1, n =>
    if n = 0 then []
    else natDigits fuel (n / 10) ++ [digitChar (n % 10)]

/-- Models `Display` for `usize`: the decimal rendering used by the
`Prefix::Depth` style. -/
def natToStr (n : Nat) : String :=
  if n = 0 then "0" else ⟨natDigits n n⟩

def pkgPrefix (style : PrefixStyle) (symbols : Symbols) (levelsContinue : List Bool) : String :=
  match style with
  | .depth => natToStr levelsContinue.length
  | .noIndent => ""
  | .indent =>
    match levelsContinue.getLast? with
    | none => ""
    | some lastContinues =>
      let cols := concatStrs (levelsContinue.dropLast.map (continuesColumn symbols))
      let c := if lastContinues then symbols.tee else symbols.ell
      cols ++ (c ++ (symbols.right ++ (symbols.right ++ " ")))

/-- The prefix printed in front of a `[build-dependencies]` /
`[dev-dependencies]` header by `print_dependencies` (`tree.rs`): one
`down`-or-blank column per entry of `levels_continue`. -/
def headerPrefix (symbols : Symbols) (levelsContinue : List Bool) : String :=
  concatStrs (levelsContinue.map (continuesColumn symbols))

/-! ## String ordering and sorting

Rust compares `String`s (and `cargo_metadata::PackageId`s, which wrap a
string) byte-lexicographically; on UTF-8 data this coincides with
codepoint-lexicographic order, embedded here on the character lists.
`Vec::sort` is embedded as an insertion sort. -/

def charsLt : List Char → List Char → Bool
  | [], [] => false
  | [], _ :: _ => true
  | _ :: _, [] => false
  | a :: as, b :: bs =>
    a.toNat < b.toNat || (a.toNat == b.toNat && charsLt as bs)

/-- Rust `str` `<`. -/
def strLt (a b : String) : Bool := charsLt a.data b.data

/-- Rust `str` `<=`. -/
def strLe (a b : String) : Bool := !(strLt b a)

/-- Insertion into a sorted list: the head of `Vec::sort`'s contract. -/
def insertLe (le : α → α → Bool) (x : α) : List α → List α
  | [] => [x]
  | y :: ys => if le x y then x :: y :: ys else y :: insertLe le x ys

/-- `Vec::sort` with a comparator, embedded as insertion sort. -/
def sortBy (le : α → α → Bool) : List α → List α
  | [] => []
  | x :: xs => insertLe le x (sortBy le xs)

/-! ## The `tree.rs` generation: graph, duplicate finder, package query -/

/-- A `cargo_metadata::Package` as consumed by `tree.rs`: its name, semver
version, source (origin string; part of the identity) and its `PackageId`.
A `cargo_metadata::PackageId` is an opaque string (`repr`), ordered and
compared as a plain string. -/
structure Package where
  name : String
  version : Version
  source : String
  id : String
deriving DecidableEq, Repr

/-- One edge of the petgraph dependency graph of `tree.rs`: endpoints are
node identities (`PackageId` strings) and the weight is the dependency
kind. -/
structure TEdge where
  source : String
  target : String
  kind : DependencyKind
deriving DecidableEq, Repr

/-- The `Graph` consumed by `tree.rs`: the petgraph node/edge sets, with the
`nodes : HashMap<PackageId, NodeIndex>` index map represented by looking
nodes up by id. -/
structure TGraph where
  nodes : List Package
  edges : List TEdge
deriving DecidableEq, Repr

/-- `graph.graph[graph.nodes[id]]`: recover the package stored for an id. -/
def nodeById (g : TGraph) (id : String) : Option Package :=
  g.nodes.find? (fun p => p.id == id)

/-- The dependency-collection loop of `print_dependencies` (`tree.rs`
lines 248-259): iterate the edges incident to `pkg` in the requested
direction, keep those with weight `kind`, and resolve the opposite endpoint
(`edge.source()` for `Incoming`, `edge.target()` for `Outgoing`) to its
package. -/
def depsOfKind (g : TGraph) (pkg : Package) (direction : EdgeDirection)
    (kind : DependencyKind) : List Package :=
  g.edges.filterMap fun e =>
    let incident :=
      match direction with
      | .incoming => e.target == pkg.id
      | .outgoing => e.source == pkg.id
    if incident && e.kind == kind then
      nodeById g (match direction with | .incoming => e.source | .outgoing => e.target)
    else
      none

/-- `find_duplicates` (`tree.rs` lines 128-148): group the node identities
by package name, keep every identity whose name has more than one identity,
and sort the result (by the `PackageId` ordering, i.e. as strings).  The
intermediate `HashMap` iteration order is immaterial because the final list
is sorted. -/
def find_duplicates (g : TGraph) : List String :=
  let dupIds :=
    (g.nodes.filter fun p =>
        1 < (g.nodes.filter fun q => q.name == p.name).length).map (·.id)
  sortBy strLe dupIds

/-- `str::split(c)` of Rust: split at every occurrence of `c`; the result is
never empty, and adjacent separators produce empty segments. -/
def splitOnChar (c : Char) : List Char → List (List Char)
  | [] => [[]]
  | x :: xs =>
    if x = c then [] :: splitOnChar c xs
    else
      match splitOnChar c xs with
      | [] => [[x]]
      | seg :: rest => (x :: seg) :: rest

/-- Digit-string to number; `none` unless the segment is a non-empty run of
decimal digits. -/
def parseNatDigits (cs : List Char) : Option Nat :=
  match cs with
  | [] => none
  | _ =>
    if cs.all (·.isDigit) then
      some (cs.foldl (fun acc c => acc * 10 + (c.toNat - 48)) 0)
    else none

/-- Modelled: `semver::Version::parse`, the external parser used by
`find_package`, restricted to the plain `major.minor.patch` shape (this code
base never exercises pre-release or build metadata). -/
def parseVersion (cs : List Char) : Option Version :=
  match (splitOnChar '.' cs).map parseNatDigits with
  | [some a, some b, some c] => some ⟨a, b, c⟩
  | _ => none

/-- The candidate loop of `find_package` (`tree.rs` lines 94-108): all graph
nodes whose name equals the queried name and, when a version was given,
whose version equals it. -/
def queryCandidates (g : TGraph) (name : String) (version : Option Version) :
    List Package :=
  g.nodes.filter fun p =>
    p.name == name &&
      match version with
      | some v => p.version == v
      | none => true

/-- Rust's `Result` (the `anyhow::Error` side carried as the rendered
message): own copy so that equality of results is decidable. -/
inductive RResult (ε α : Type) where
  | error (err : ε)
  | ok (val : α)
deriving DecidableEq, Repr

/-- The message of the zero-candidate error of `find_package`. -/
def noCratesMsg (query : String) : String :=
  "no crates found for package `" ++ query ++ "`"

/-- The message of the many-candidate error of `find_package`: lists every
candidate as `name:version`, comma-separated. -/
def multipleCratesMsg (query : String) (candidates : List Package) : String :=
  "multiple crates found for package `" ++ query ++ "`: " ++
    String.intercalate ", "
      (candidates.map fun p => p.name ++ ":" ++ p.version.toStr)

/-- The tail of `find_package` after query parsing (`tree.rs`
lines 94-125): empty candidate list is an error, more than one candidate is
an error listing the candidates, exactly one yields its id. -/
def findPackageWith (query : String) (g : TGraph) (name : String)
    (version : Option Version) : RResult String String :=
  let candidates := queryCandidates g name version
  match candidates with
  | [] => .error (noCratesMsg query)
  | [p] => .ok p.id
  | _ => .error (multipleCratesMsg query candidates)

/-- The query-parsing head of `find_package` (`tree.rs` lines 86-92):
split the query at `:`, take the first segment as the name
(`it.next().unwrap()` — a split is never empty) and the second segment,
when present, as the version (later segments are never read); `none`
signals the version-parse failure. -/
def queryParse (package : String) : Option (String × Option Version) :=
  let parts := splitOnChar ':' package.data
  let name := (parts.headD []).asString
  match parts[1]? with
  | some vseg =>
    match parseVersion vseg with
    | none => none
    | some v => some (name, some v)
  | none => some (name, none)

/-- `find_package` (`tree.rs` lines 85-126): parse the query, fail with the
version-parse context message when the version does not parse, and
otherwise resolve the candidates. -/
def find_package (package : String) (g : TGraph) : RResult String String :=
  match queryParse package with
  | none => .error "error parsing package version"
  | some (name, version) => findPackageWith package g name version

/-! ## The `tree.rs` renderer -/

/-- The group-header label chosen by `print_dependencies` (`tree.rs`
lines 268-273): no header for `Normal`, a bracketed label for the other two
kinds. -/
def kindHeaderLabel : DependencyKind → Option String
  | .normal => none
  | .build => some "[build-dependencies]"
  | .development => some "[dev-dependencies]"

/-- The child loop at the bottom of `print_dependencies` (`tree.rs`
lines 286-301): for each dependency push `it.peek().is_some()` (i.e.
whether further siblings remain) onto `levels_continue`, recurse, pop.  The
recursion `rc` is supplied by `printPackage`, the visited set is threaded
left to right. -/
def renderChildren
    (rc : Package → List String → List Bool → Option (List Line × List String)) :
    List Package → List String → List Bool → Option (List Line × List String)
  | [], visited, _ => some ([], visited)
  | d :: rest, visited, levels =>
    match rc d visited (levels ++ [!rest.isEmpty]) with
    | none => none
    | some (ls, visited') =>
      match renderChildren rc rest visited' levels with
      | none => none
      | some (ls2, visited'') => some (ls ++ ls2, visited'')

/-- `print_dependencies` (`tree.rs` lines 235-302): collect the
`kind`-edges around `package` in the given direction, return silently if
there are none, sort them by `PackageId` for a consistent output ordering,
print the group header (only in the `Indent` style and only for kinds that
have one), then recurse into each child. -/
def printDependencies
    (rc : Package → List String → List Bool → Option (List Line × List String))
    (g : TGraph) (direction : EdgeDirection) (symbols : Symbols)
    (style : PrefixStyle) (kind : DependencyKind) (pkg : Package)
    (visited : List String) (levels : List Bool) :
    Option (List Line × List String) :=
  let deps := depsOfKind g pkg direction kind
  if deps.isEmpty then some ([], visited)
  else
    let deps := sortBy (fun a b => strLe a.id b.id) deps
    let headerLines : List Line :=
      match style, kindHeaderLabel kind with
      | .indent, some name => [Line.header (headerPrefix symbols levels) name]
      | _, _ => []
    match renderChildren rc deps visited levels with
    | none => none
    | some (ls, visited') => some (headerLines ++ ls, visited')

/-- `print_package` (`tree.rs` lines 175-233): decide newness
(`all || visited_deps.insert(&package.id)`, so the visited set is only
consulted and extended when `all` is false), print the package line with a
` (*)` star when not new, stop there for non-new packages, and otherwise
print the dependency groups in the fixed order Normal, Build, Development.
The `fuel` argument bounds the recursion depth and is this embedding's
termination device; the Rust recursion has none. -/
def printPackage (g : TGraph) (format : Package → String)
    (direction : EdgeDirection) (symbols : Symbols) (style : PrefixStyle)
    (all : Bool) :
    Nat → Package → List String → List Bool → Option (List Line × List String)
  | 0, _, _, _ => none
  | fuel + 1, pkg, visited, levels =>
    let wasVisited := visited.contains pkg.id
    let new := all || !wasVisited
    let visited' := if all then visited else if wasVisited then visited else pkg.id :: visited
    let line := Line.pkg (pkgPrefix style symbols levels) (format pkg) (!new)
    if !new then some ([line], visited')
    else
      match printDependencies (printPackage g format direction symbols style all fuel)
          g direction symbols style .normal pkg visited' levels with
      | none => none
      | some (l1, v1) =>
        match printDependencies (printPackage g format direction symbols style all fuel)
            g direction symbols style .build pkg v1 levels with
        | none => none
        | some (l2, v2) =>
          match printDependencies (printPackage g format direction symbols style all fuel)
              g direction symbols style .development pkg v2 levels with
          | none => none
          | some (l3, v3) => some (line :: (l1 ++ (l2 ++ l3)), v3)

/-- `print_tree` (`tree.rs` lines 150-173): start a traversal from `root`
with a fresh visited set and empty `levels_continue`. -/
def print_tree (g : TGraph) (root : Package) (format : Package → String)
    (direction : EdgeDirection) (symbols : Symbols) (style : PrefixStyle)
    (all : Bool) (fuel : Nat) : Option (List Line) :=
  (printPackage g format direction symbols style all fuel root [] []).map (·.1)

/-! ## The `main.rs` generation: cargo-core identities and `build_graph` -/

/-- A `cargo::core::PackageId`: the (name, version, source) identity triple.
Its `Ord` compares the name, then the version, then the source. -/
structure CPackageId where
  name : String
  version : Version
  source : String
deriving DecidableEq, Repr

/-- Strict `Ord` on `cargo::core::PackageId`: name, then semver version,
then source. -/
def cpidLt (a b : CPackageId) : Bool :=
  strLt a.name b.name ||
    (a.name == b.name &&
      (Version.lt a.version b.version ||
        (a.version == b.version && strLt a.source b.source)))

def cpidLe (a b : CPackageId) : Bool := !(cpidLt b a)

/-- One manifest dependency declaration (`cargo::core::Dependency`) as
consulted by `build_graph`: the depended-on name, the version requirement
(modelled as an optional exact version; `none` accepts anything), the
dependency kind, and an optional platform restriction. -/
structure CDependency where
  name : String
  req : Option Version
  kind : DependencyKind
  platform : Option String
deriving DecidableEq, Repr

/-- A resolver-document package: its identity plus its manifest dependency
declarations (`pkg.dependencies()`). -/
structure CPackage where
  id : CPackageId
  dependencies : List CDependency
deriving DecidableEq, Repr

/-- The resolver output consumed by `build_graph`: the package list
(`PackageSet`) and the `Resolve` tables `deps_not_replaced` and
`replacement`. -/
structure ResolveDoc where
  packages : List CPackage
  deps : List (CPackageId × List CPackageId)
  replacements : List (CPackageId × CPackageId)
deriving DecidableEq, Repr

/-- Modelled: `Dependency::matches_ignoring_source` of the external cargo
crate — the declaration names the resolved package and its version
requirement accepts the resolved version (sources are ignored). -/
def matchesIgnoringSource (d : CDependency) (id : CPackageId) : Bool :=
  d.name == id.name &&
    match d.req with
    | some v => id.version == v
    | none => true

/-- The platform filter of `build_graph` (`main.rs` lines 411-415):
`d.platform().and_then(|p| target.map(|t| p.matches(t, cfgs))).unwrap_or(true)`.
`Platform::matches` of the external cargo crate is modelled as equality
with the target triple (cfg expressions are out of scope). -/
def platformMatches (d : CDependency) (target : Option String) : Bool :=
  match d.platform, target with
  | some p, some t => p == t
  | _, _ => true

/-- A graph node of `main.rs` (`Node`, lines 361-366): identity, the value
of `current_depth` when the node was first created, and whether a second
discovery path reached it.  The `metadata` field only feeds the format
pattern and is absorbed into the format function. -/
structure MNode where
  id : CPackageId
  depth_first_seen : Nat
  is_duplicate : Bool
deriving DecidableEq, Repr

structure MEdge where
  source : CPackageId
  target : CPackageId
  kind : DependencyKind
deriving DecidableEq, Repr

/-- The `Graph` of `main.rs` (lines 368-371). -/
structure MGraph where
  nodes : List MNode
  edges : List MEdge
deriving DecidableEq, Repr

def mnodeById (g : MGraph) (id : CPackageId) : Option MNode :=
  g.nodes.find? (fun n => n.id == id)

/-- `resolve.deps_not_replaced(pkg_id)`: the resolved dependency identities
of a package (absent packages resolve to no dependencies). -/
def lookupDeps (deps : List (CPackageId × List CPackageId)) (id : CPackageId) :
    List CPackageId :=
  ((deps.find? fun pr => pr.1 == id).map (·.2)).getD []

/-- `resolve.replacement(raw_dep_id)`. -/
def lookupReplacement (reps : List (CPackageId × CPackageId)) (id : CPackageId) :
    Option CPackageId :=
  (reps.find? fun pr => pr.1 == id).map (·.2)

/-- The inner `for dep in it` loop of `build_graph` (`main.rs`
lines 420-449), for one resolved dependency `raw`/`depId` of `pkg`: for
every manifest declaration that matches `raw` and passes the platform
filter, either mark the existing node as a duplicate (occupied entry) or
create the node at the current depth and schedule it (vacant entry —
scheduling only happens below a requested maximum depth), and in both cases
append one edge carrying the declaration's kind. -/
def processDep (target : Option String) (maxDepth : Option Nat)
    (currentDepth : Nat) (pkg : CPackage) (raw depId : CPackageId)
    (st : MGraph × List CPackageId) : MGraph × List CPackageId :=
  let matching := pkg.dependencies.filter fun d =>
    matchesIgnoringSource d raw && platformMatches d target
  matching.foldl
    (fun (st : MGraph × List CPackageId) dep =>
      let (g, pending) := st
      match g.nodes.find? (fun n => n.id == depId) with
      | some _ =>
        ({ nodes := g.nodes.map fun n =>
             if n.id == depId then { n with is_duplicate := true } else n,
           edges := g.edges ++ [⟨pkg.id, depId, dep.kind⟩] }, pending)
      | none =>
        let pending' :=
          match maxDepth with
          | some d => if currentDepth < d then pending ++ [depId] else pending
          | none => pending ++ [depId]
        ({ nodes := g.nodes ++ [⟨depId, currentDepth, false⟩],
           edges := g.edges ++ [⟨pkg.id, depId, dep.kind⟩] }, pending'))
    st

/-- The body of `build_graph`'s `while` loop for one popped package:
iterate its resolved dependencies, applying the replacement table before
recording each.  Fails (like `packages.get_one`) if the popped identity has
no package in the document. -/
def buildStep (doc : ResolveDoc) (target : Option String)
    (maxDepth : Option Nat) (currentDepth : Nat) (pkgId : CPackageId)
    (g : MGraph) : Option (MGraph × List CPackageId) :=
  match doc.packages.find? (fun p => p.id == pkgId) with
  | none => none
  | some pkg =>
    some ((lookupDeps doc.deps pkgId).foldl
      (fun st raw =>
        let depId := (lookupReplacement doc.replacements raw).getD raw
        processDep target maxDepth currentDepth pkg raw depId st)
      (g, []))

/-- The `while let Some(pkg_id) = pending.pop_front()` loop of
`build_graph` (`main.rs` lines 402-452), with `current_depth` incremented
once per popped package, exactly as in the source. -/
def buildLoop (doc : ResolveDoc) (target : Option String)
    (maxDepth : Option Nat) :
    Nat → List CPackageId → Nat → MGraph → Option MGraph
  | 0, _, _, _ => none
  | _ + 1, [], _, g => some g
  | fuel + 1, pkgId :: rest, currentDepth, g =>
    match buildStep doc target maxDepth currentDepth pkgId g with
    | none => none
    | some (g', newPending) =>
      buildLoop doc target maxDepth fuel (rest ++ newPending) (currentDepth + 1) g'

/-- `build_graph` (`main.rs` lines 373-455): seed the graph with the root
node at depth 0, return it immediately when `max_depth == Some(0)`, and
otherwise run the worklist starting from the root with `current_depth = 1`. -/
def build_graph (doc : ResolveDoc) (root : CPackageId) (target : Option String)
    (maxDepth : Option Nat) (fuel : Nat) : Option MGraph :=
  match doc.packages.find? (fun p => p.id == root) with
  | none => none
  | some _ =>
    let g : MGraph := { nodes := [⟨root, 0, false⟩], edges := [] }
    if maxDepth == some 0 then some g
    else buildLoop doc target maxDepth fuel [root] 1 g

/-! ## The `main.rs` renderer (depth limit, `is_duplicate` truncation) -/

/-- The depth-limit test of `print_dependency` (`main.rs` line 525):
`max_depth.map_or_else(|| false, |d| levels_continue.len() >= d)`. -/
def atMaxDepth (maxDepth : Option Nat) (levels : List Bool) : Bool :=
  match maxDepth with
  | none => false
  | some d => d ≤ levels.length

/-- The package-line prefix of `print_dependency` (`main.rs`
lines 503-521); it differs from the `tree.rs` one only in `Prefix::Depth`,
which prints a space after the depth. -/
def mPkgPrefix (style : PrefixStyle) (symbols : Symbols)
    (levels : List Bool) : String :=
  match style with
  | .depth => natToStr levels.length ++ " "
  | _ => pkgPrefix style symbols levels

/-- The edge-collection loop of `print_dependency` (`main.rs`
lines 529-545), restricted to one kind bucket: the `match *edge.weight()`
partition preserves the edge iteration order within each kind. -/
def mDepsOfKind (g : MGraph) (node : MNode) (direction : EdgeDirection)
    (kind : DependencyKind) : List MNode :=
  g.edges.filterMap fun e =>
    let incident :=
      match direction with
      | .incoming => e.target == node.id
      | .outgoing => e.source == node.id
    if incident && e.kind == kind then
      mnodeById g (match direction with | .incoming => e.source | .outgoing => e.target)
    else
      none

/-- The child loop of `print_dependency_kind` (`main.rs` lines 620-635). -/
def mRenderChildren (rc : MNode → List Bool → Option (List Line)) :
    List MNode → List Bool → Option (List Line)
  | [], _ => some []
  | d :: rest, levels =>
    match rc d (levels ++ [!rest.isEmpty]) with
    | none => none
    | some ls =>
      match mRenderChildren rc rest levels with
      | none => none
      | some ls2 => some (ls ++ ls2)

/-- `print_dependency_kind` (`main.rs` lines 585-636): nothing for an empty
bucket; otherwise sort the bucket by `PackageId` for consistent output
ordering, print the group header (`Indent` style, `Build`/`Development`
kinds only), and recurse into each child. -/
def printDependencyKind (rc : MNode → List Bool → Option (List Line))
    (symbols : Symbols) (style : PrefixStyle) (kind : DependencyKind)
    (deps : List MNode) (levels : List Bool) : Option (List Line) :=
  if deps.isEmpty then some []
  else
    let deps := sortBy (fun a b => cpidLe a.id b.id) deps
    let headerLines : List Line :=
      match style, kindHeaderLabel kind with
      | .indent, some name => [Line.header (headerPrefix symbols levels) name]
      | _, _ => []
    match mRenderChildren rc deps levels with
    | none => none
    | some ls => some (headerLines ++ ls)

/-- `print_dependency` (`main.rs` lines 488-583): a node is printed anew
(`new`) when `all` is set, when it has a single discovery path
(`!is_duplicate`), or when the current depth does not exceed the depth at
which `build_graph` first saw it; non-new nodes get the ` (*)` star.  The
line is printed unconditionally; expansion stops when the node is not new
or the depth limit is reached, and otherwise recurses kind bucket by kind
bucket in the order Normal, Build, Development. -/
def printDependency (g : MGraph) (format : MNode → String)
    (direction : EdgeDirection) (symbols : Symbols) (style : PrefixStyle)
    (all : Bool) (maxDepth : Option Nat) :
    Nat → MNode → List Bool → Option (List Line)
  | 0, _, _ => none
  | fuel + 1, node, levels =>
    let new := all || (!node.is_duplicate || levels.length ≤ node.depth_first_seen)
    let line := Line.pkg (mPkgPrefix style symbols levels) (format node) (!new)
    if !new || atMaxDepth maxDepth levels then some [line]
    else
      match printDependencyKind
          (printDependency g format direction symbols style all maxDepth fuel)
          symbols style .normal (mDepsOfKind g node direction .normal) levels with
      | none => none
      | some l1 =>
        match printDependencyKind
            (printDependency g format direction symbols style all maxDepth fuel)
            symbols style .build (mDepsOfKind g node direction .build) levels with
        | none => none
        | some l2 =>
          match printDependencyKind
              (printDependency g format direction symbols style all maxDepth fuel)
              symbols style .development (mDepsOfKind g node direction .development) levels with
          | none => none
          | some l3 => some (line :: (l1 ++ (l2 ++ l3)))

/-- `print_tree` (`main.rs` lines 457-486): resolve the root id in the
node map — `bail!` when absent — and start the traversal with empty
`levels_continue`.  (`PackageId`'s `Display` is modelled as
`name vversion`.) -/
def printTreeM (g : MGraph) (format : MNode → String)
    (direction : EdgeDirection) (symbols : Symbols) (style : PrefixStyle)
    (all : Bool) (maxDepth : Option Nat) (rootId : CPackageId) (fuel : Nat) :
    RResult String (Option (List Line)) :=
  match mnodeById g rootId with
  | none => .error ("package " ++ rootId.name ++ " v" ++ rootId.version.toStr ++ " not found")
  | some node =>
    .ok (printDependency g format direction symbols style all maxDepth fuel node [])

/-! ## Observation helpers used by the theorems -/

/-- The character-level translation from the UTF-8 connector glyphs to
their ASCII counterparts (`│ ↦ |`, `├ ↦ |`, `└ ↦ backtick`, `─ ↦ -`);
all other characters are unchanged. -/
def asciiChar (c : Char) : Char :=
  if c = '│' then '|'
  else if c = '├' then '|'
  else if c = '└' then Char.ofNat 96
  else if c = '─' then '-'
  else c

def asciifyStr (s : String) : String := ⟨s.data.map asciiChar⟩

/-- Glyph translation of one output line: only the connector prefix is
touched, labels and stars are preserved. -/
def asciifyLine : Line → Line
  | .pkg pre label star => .pkg (asciifyStr pre) label star
  | .header pre name => .header (asciifyStr pre) name

/-- Follows the spec's words, for comparison with `find_duplicates`:
identities ordered "by full identity (name, then version, then source)",
with versions compared as semantic versions. -/
def specIdentityLe (p q : Package) : Bool :=
  strLt p.name q.name ||
    (p.name == q.name &&
      (Version.lt p.version q.version ||
        (p.version == q.version && strLe p.source q.source)))

/-- Follows the spec's words: an id sequence is sorted by full identity
when each adjacent pair of the packages the ids denote is ordered by
(name, then version, then source). -/
def specSortedByIdentity (g : TGraph) : List String → Bool
  | [] => true
  | [_] => true
  | x :: y :: rest =>
    (match nodeById g x, nodeById g y with
     | some p, some q => specIdentityLe p q
     | _, _ => false) &&
      specSortedByIdentity g (y :: rest)

/-! ## Order and sorting lemmas -/

theorem charsLt_irrefl (l : List Char) : charsLt l l = false := by
  induction l with
  | nil => rfl
  | cons a as ih => simp [charsLt, ih]

theorem charsLt_asymm {a b : List Char} (h : charsLt a b = true) :
    charsLt b a = false := by
  induction a generalizing b with
  | nil => cases b with
    | nil => simp [charsLt] at h
    | cons y ys => simp [charsLt]
  | cons x xs ih =>
    cases b with
    | nil => simp [charsLt] at h
    | cons y ys =>
      rw [Bool.eq_false_iff]
      intro hc
      simp only [charsLt, Bool.or_eq_true, Bool.and_eq_true, decide_eq_true_eq,
        beq_iff_eq] at h hc
      rcases h with h | ⟨he, h⟩ <;> rcases hc with hc | ⟨he', hc⟩
      · omega
      · omega
      · omega
      · simp [ih h] at hc

theorem strLt_asymm {a b : String} (h : strLt a b = true) : strLt b a = false := by
  simp only [strLt] at h ⊢
  exact charsLt_asymm h

theorem strLt_irrefl (a : String) : strLt a a = false := by
  simp [strLt, charsLt_irrefl]

theorem strLe_total (a b : String) : strLe a b = true ∨ strLe b a = true := by
  by_cases h : charsLt b.data a.data = true
  · right
    simp [strLe, strLt, charsLt_asymm h]
  · left
    simp only [Bool.not_eq_true] at h
    simp [strLe, strLt, h]

theorem versionLt_irrefl (v : Version) : Version.lt v v = false := by
  simp [Version.lt]

theorem versionLt_asymm {a b : Version} (h : Version.lt a b = true) :
    Version.lt b a = false := by
  rw [Bool.eq_false_iff]
  intro hc
  simp only [Version.lt, Bool.or_eq_true, Bool.and_eq_true, decide_eq_true_eq,
    beq_iff_eq] at h hc
  omega

theorem cpidLt_asymm {a b : CPackageId} (h : cpidLt a b = true) :
    cpidLt b a = false := by
  rw [Bool.eq_false_iff]
  intro hc
  simp only [cpidLt, Bool.or_eq_true, Bool.and_eq_true, beq_iff_eq] at h hc
  rcases h with h | ⟨he, h⟩ <;> rcases hc with hc | ⟨he', hc⟩
  · simp [strLt_asymm h] at hc
  · rw [he'] at h
    simp [strLt_irrefl] at h
  · rw [← he] at hc
    simp [strLt_irrefl] at hc
  · rcases h with h | ⟨hv, h⟩ <;> rcases hc with hc | ⟨hv', hc⟩
    · simp [versionLt_asymm h] at hc
    · rw [hv'] at h
      simp [versionLt_irrefl] at h
    · rw [← hv] at hc
      simp [versionLt_irrefl] at hc
    · simp [strLt_asymm h] at hc

theorem cpidLe_total (a b : CPackageId) : cpidLe a b = true ∨ cpidLe b a = true := by
  by_cases h : cpidLt b a = true
  · right
    simp [cpidLe, cpidLt_asymm h]
  · left
    simp only [Bool.not_eq_true] at h
    simp [cpidLe, h]

theorem insertLe_perm (le : α → α → Bool) (x : α) (l : List α) :
    (insertLe le x l).Perm (x :: l) := by
  induction l with
  | nil => simp [insertLe]
  | cons y ys ih =>
    by_cases h : le x y = true
    · simp [insertLe, h]
    · rw [insertLe, if_neg (by simp [h])]
      exact (List.Perm.cons y ih).trans (List.Perm.swap x y ys)

theorem sortBy_perm (le : α → α → Bool) (l : List α) : (sortBy le l).Perm l := by
  induction l with
  | nil => simp [sortBy]
  | cons x xs ih =>
    exact (insertLe_perm le x (sortBy le xs)).trans (List.Perm.cons x ih)

theorem mem_sortBy {le : α → α → Bool} {l : List α} {x : α} :
    x ∈ sortBy le l ↔ x ∈ l :=
  (sortBy_perm le l).mem_iff

theorem sortBy_eq_nil_iff {le : α → α → Bool} {l : List α} :
    sortBy le l = [] ↔ l = [] := by
  constructor
  · intro h
    have := sortBy_perm le l
    rw [h] at this
    exact (List.Perm.nil_eq this).symm
  · intro h
    subst h
    rfl

/-- The head of an insertion is the inserted element or the old head. -/
theorem insertLe_cases (le : α → α → Bool) (x : α) (l : List α) :
    insertLe le x l = x :: l ∨
      ∃ y ys, l = y :: ys ∧ le x y = false ∧
        insertLe le x l = y :: insertLe le x ys := by
  cases l with
  | nil => left; rfl
  | cons y ys =>
    by_cases h : le x y = true
    · left
      simp [insertLe, h]
    · right
      refine ⟨y, ys, rfl, by simpa using h, ?_⟩
      simp [insertLe, h]

theorem chain'_insertLe {le : α → α → Bool}
    (htot : ∀ a b, le a b = true ∨ le b a = true) {l : List α} (x : α)
    (hl : List.Chain' (fun a b => le a b = true) l) :
    List.Chain' (fun a b => le a b = true) (insertLe le x l) := by
  induction l with
  | nil => simp [insertLe]
  | cons y ys ih =>
    by_cases h : le x y = true
    · simp only [insertLe, h, if_pos]
      exact List.Chain'.cons h hl
    · simp only [insertLe, h, if_neg]
      have hyx : le y x = true := by
        rcases htot x y with ht | ht
        · simp [ht] at h
        · exact ht
      have hys : List.Chain' (fun a b => le a b = true) ys := hl.tail
      have hrec := ih hys
      rcases insertLe_cases le x ys with hcase | ⟨z, zs, hz, _, hcase⟩
      · rw [hcase]
        rw [hcase] at hrec
        exact List.Chain'.cons hyx hrec
      · rw [hcase]
        rw [hcase] at hrec
        have hyz : le y z = true := by
          rw [hz] at hl
          exact (List.chain'_cons.mp hl).1
        exact List.Chain'.cons hyz hrec

theorem chain'_sortBy {le : α → α → Bool}
    (htot : ∀ a b, le a b = true ∨ le b a = true) (l : List α) :
    List.Chain' (fun a b => le a b = true) (sortBy le l) := by
  induction l with
  | nil => simp [sortBy]
  | cons x xs ih => exact chain'_insertLe htot x ih

/-! ## Query-splitting lemmas -/

theorem strData_append (a b : String) : (a ++ b).data = a.data ++ b.data := rfl

theorem splitOnChar_not_mem {c : Char} {xs : List Char} (h : c ∉ xs)
    (ys : List Char) :
    splitOnChar c (xs ++ c :: ys) = xs :: splitOnChar c ys := by
  induction xs with
  | nil => simp [splitOnChar]
  | cons a as ih =>
    have hac : ¬ a = c := fun he => h (by simp [he])
    have h' : c ∉ as := fun hm => h (List.mem_cons_of_mem _ hm)
    simp only [List.cons_append, splitOnChar, if_neg hac, List.append_eq]
    rw [ih h']

theorem splitOnChar_no_sep {c : Char} {xs : List Char} (h : c ∉ xs) :
    splitOnChar c xs = [xs] := by
  induction xs with
  | nil => rfl
  | cons a as ih =>
    have hac : ¬ a = c := fun he => h (by simp [he])
    have h' : c ∉ as := fun hm => h (List.mem_cons_of_mem _ hm)
    simp only [splitOnChar, if_neg hac]
    rw [ih h']

/-! ## Concrete instances used by witnesses and counterexamples -/

def fmtName (p : Package) : String := p.name

def fmtMName (n : MNode) : String := n.id.name

def pA : Package := ⟨"a", ⟨1, 0, 0⟩, "reg", "a 1.0.0 (reg)"⟩

def pB : Package := ⟨"b", ⟨1, 0, 0⟩, "reg", "b 1.0.0 (reg)"⟩

def pC : Package := ⟨"c", ⟨1, 0, 0⟩, "reg", "c 1.0.0 (reg)"⟩

def pD : Package := ⟨"d", ⟨1, 0, 0⟩, "reg", "d 1.0.0 (reg)"⟩

/-- A diamond with one build edge: a → b (normal), a → c (build),
b → d, c → d (normal). -/
def gDiamond : TGraph :=
  { nodes := [pA, pB, pC, pD],
    edges := [⟨pA.id, pB.id, .normal⟩, ⟨pA.id, pC.id, .build⟩,
              ⟨pB.id, pD.id, .normal⟩, ⟨pC.id, pD.id, .normal⟩] }

/-- A single package depending on itself: the directed cycle of C1. -/
def gCycle : TGraph :=
  { nodes := [pA], edges := [⟨pA.id, pA.id, .normal⟩] }

def pFoo19 : Package := ⟨"foo", ⟨1, 9, 0⟩, "reg", "foo 1.9.0 (reg)"⟩

def pFoo110 : Package := ⟨"foo", ⟨1, 10, 0⟩, "reg", "foo 1.10.0 (reg)"⟩

def pBar : Package := ⟨"bar", ⟨1, 0, 0⟩, "reg", "bar 1.0.0 (reg)"⟩

/-- Two versions of `foo` and one `bar`: the duplicate-finder example. -/
def gDup : TGraph := { nodes := [pFoo19, pFoo110, pBar], edges := [] }

/-- The format pattern rendering the full id (tells the two `foo` versions
apart in the output). -/
def fmtId (p : Package) : String := p.id

/-- `bar` depending on both versions of `foo` with the normal kind: the
sibling-ordering example. -/
def gC6 : TGraph :=
  { nodes := [pBar, pFoo19, pFoo110],
    edges := [⟨pBar.id, pFoo19.id, .normal⟩, ⟨pBar.id, pFoo110.id, .normal⟩] }

def idA : CPackageId := ⟨"a", ⟨1, 0, 0⟩, "reg"⟩

def idB : CPackageId := ⟨"b", ⟨1, 0, 0⟩, "reg"⟩

def idD : CPackageId := ⟨"d", ⟨1, 0, 0⟩, "reg"⟩

/-- Resolver document with a → {b, d} and b → d (all normal): `d` has two
discovery paths, the second one below its first-seen depth. -/
def docC4 : ResolveDoc :=
  { packages :=
      [⟨idA, [⟨"b", none, .normal, none⟩, ⟨"d", none, .normal, none⟩]⟩,
       ⟨idB, [⟨"d", none, .normal, none⟩]⟩,
       ⟨idD, []⟩],
    deps := [(idA, [idB, idD]), (idB, [idD]), (idD, [])],
    replacements := [] }

/-- Resolver document declaring `b` under `a` twice, once as a normal and
once as a build dependency. -/
def docTwoKinds : ResolveDoc :=
  { packages :=
      [⟨idA, [⟨"b", none, .normal, none⟩, ⟨"b", none, .build, none⟩]⟩,
       ⟨idB, []⟩],
    deps := [(idA, [idB]), (idB, [])],
    replacements := [] }

/-- Resolver document declaring `b` under `a` twice with the same kind
(two platform-specific declaration tables, no target filter). -/
def docSameKindTwice : ResolveDoc :=
  { packages :=
      [⟨idA, [⟨"b", none, .normal, some "unix"⟩, ⟨"b", none, .normal, some "linux"⟩]⟩,
       ⟨idB, []⟩],
    deps := [(idA, [idB]), (idB, [])],
    replacements := [] }

/-! ## Claim C5: depth limit 0 prints exactly the root line -/

/-- C5: for every graph and every root present in it, rendering with
`depth_limit = 0` emits exactly one line — the root package line, with no
truncation star — and no group headers and no children, for every value of
`show_all` (and every direction, symbol set and prefix style). -/
theorem c5_depth_zero_prints_root_only (g : MGraph) (format : MNode → String)
    (direction : EdgeDirection) (symbols : Symbols) (style : PrefixStyle)
    (all : Bool) (rootId : CPackageId) (fuel : Nat) (n : MNode)
    (h : mnodeById g rootId = some n) :
    printTreeM g format direction symbols style all (some 0) rootId (fuel + 1) =
      .ok (some [Line.pkg (mPkgPrefix style symbols []) (format n) false]) := by
  unfold printTreeM
  rw [h]
  unfold printDependency
  simp [atMaxDepth, Nat.zero_le]

theorem c5_depth_zero_prints_root_only_witness :
    mnodeById { nodes := [⟨idA, 0, false⟩], edges := [] } idA = some ⟨idA, 0, false⟩ ∧
      printTreeM { nodes := [⟨idA, 0, false⟩], edges := [] } fmtMName .outgoing
          UTF8_SYMBOLS .indent false (some 0) idA 5 =
        .ok (some [Line.pkg (mPkgPrefix .indent UTF8_SYMBOLS [])
          (fmtMName ⟨idA, 0, false⟩) false]) :=
  ⟨by decide,
   c5_depth_zero_prints_root_only _ fmtMName .outgoing UTF8_SYMBOLS .indent
     false idA 4 ⟨idA, 0, false⟩ (by decide)⟩

/-! ## Claim C7: root-query resolution -/

/-- C7: for every graph and every query that parses, `find_package` fails
with the package-not-found error when no node matches, fails with the
ambiguous-package error — whose message lists every candidate as
`name:version` — when several match, and returns the unique node's id when
exactly one matches. -/
theorem c7_find_package_resolution (g : TGraph) (query : String)
    (name : String) (version : Option Version)
    (hq : queryParse query = some (name, version)) :
    (queryCandidates g name version = [] →
        find_package query g = .error (noCratesMsg query)) ∧
      (∀ p, queryCandidates g name version = [p] →
        find_package query g = .ok p.id) ∧
      (2 ≤ (queryCandidates g name version).length →
        find_package query g =
          .error (multipleCratesMsg query (queryCandidates g name version))) := by
  refine ⟨fun hc => ?_, fun p hc => ?_, fun hc => ?_⟩
  · simp only [find_package, hq, findPackageWith, hc]
  · simp only [find_package, hq, findPackageWith, hc]
  · rcases hcand : queryCandidates g name version with _ | ⟨p, _ | ⟨q, rest⟩⟩
    · rw [hcand] at hc
      simp at hc
    · rw [hcand] at hc
      simp at hc
    · simp only [find_package, hq, findPackageWith, hcand]

theorem c7_find_package_resolution_witness :
    queryParse "foo" = some ("foo", none) ∧
      (queryCandidates gDup "foo" none = [] →
        find_package "foo" gDup = .error (noCratesMsg "foo")) ∧
      (∀ p, queryCandidates gDup "foo" none = [p] →
        find_package "foo" gDup = .ok p.id) ∧
      (2 ≤ (queryCandidates gDup "foo" none).length →
        find_package "foo" gDup =
          .error (multipleCratesMsg "foo" (queryCandidates gDup "foo" none))) :=
  ⟨by decide, c7_find_package_resolution gDup "foo" "foo" none (by decide)⟩

/-! ## Claim C10: extra query segments are ignored; bad versions fail -/

/-- C10: a query `name:version:extra` (with `name` and `version` free of
`:`) resolves exactly like `name:version`: the query parser extracts the
same (name, version) pair — the third and later segments are silently
ignored, never rejected — so the two queries select the same package
(`find_package` returns `.ok` of an id for one iff it does for the other;
error messages differ only because they echo the query verbatim); and when
the version segment does not parse, the result is the version-parse error,
not the package-not-found error. -/
theorem c10_query_extra_segments (g : TGraph) (name v extra : String)
    (hn : ':' ∉ name.data) (hv : ':' ∉ v.data) :
    queryParse (name ++ ":" ++ v ++ ":" ++ extra) =
        queryParse (name ++ ":" ++ v) ∧
      (∀ pid, find_package (name ++ ":" ++ v ++ ":" ++ extra) g = .ok pid ↔
        find_package (name ++ ":" ++ v) g = .ok pid) ∧
      (parseVersion v.data = none →
        find_package (name ++ ":" ++ v ++ ":" ++ extra) g =
          .error "error parsing package version") := by
  have hd1 : (name ++ ":" ++ v ++ ":" ++ extra).data =
      name.data ++ ':' :: (v.data ++ ':' :: extra.data) := by
    simp [strData_append]
  have hd2 : (name ++ ":" ++ v).data = name.data ++ ':' :: v.data := by
    simp [strData_append]
  have hs1 : splitOnChar ':' (name ++ ":" ++ v ++ ":" ++ extra).data =
      name.data :: v.data :: splitOnChar ':' extra.data := by
    rw [hd1, splitOnChar_not_mem hn, splitOnChar_not_mem hv]
  have hs2 : splitOnChar ':' (name ++ ":" ++ v).data = [name.data, v.data] := by
    rw [hd2, splitOnChar_not_mem hn, splitOnChar_no_sep hv]
  have hq : queryParse (name ++ ":" ++ v ++ ":" ++ extra) =
      queryParse (name ++ ":" ++ v) := by
    unfold queryParse
    rw [hs1, hs2]
    simp
  refine ⟨hq, fun pid => ?_, fun hpv => ?_⟩
  · unfold find_package
    rw [hq]
    rcases hp : queryParse (name ++ ":" ++ v) with _ | ⟨nm, ver⟩
    · simp
    · simp only [findPackageWith]
      rcases queryCandidates g nm ver with _ | ⟨p, _ | ⟨q, rest⟩⟩ <;> simp
  · unfold find_package queryParse
    rw [hs1]
    simp [hpv]

theorem c10_query_extra_segments_witness :
    (':' ∉ "foo".data) ∧ (':' ∉ "1.9.0".data) ∧ (':' ∉ "nope".data) ∧
      (queryParse ("foo" ++ ":" ++ "1.9.0" ++ ":" ++ "zzz") =
          queryParse ("foo" ++ ":" ++ "1.9.0") ∧
        (∀ pid, find_package ("foo" ++ ":" ++ "1.9.0" ++ ":" ++ "zzz") gDup = .ok pid ↔
          find_package ("foo" ++ ":" ++ "1.9.0") gDup = .ok pid) ∧
        (parseVersion "1.9.0".data = none →
          find_package ("foo" ++ ":" ++ "1.9.0" ++ ":" ++ "zzz") gDup =
            .error "error parsing package version")) ∧
      (queryParse ("foo" ++ ":" ++ "nope" ++ ":" ++ "zzz") =
          queryParse ("foo" ++ ":" ++ "nope") ∧
        (∀ pid, find_package ("foo" ++ ":" ++ "nope" ++ ":" ++ "zzz") gDup = .ok pid ↔
          find_package ("foo" ++ ":" ++ "nope") gDup = .ok pid) ∧
        (parseVersion "nope".data = none →
          find_package ("foo" ++ ":" ++ "nope" ++ ":" ++ "zzz") gDup =
            .error "error parsing package version")) :=
  ⟨by decide, by decide, by decide,
   c10_query_extra_segments gDup "foo" "1.9.0" "zzz" (by decide) (by decide),
   c10_query_extra_segments gDup "foo" "nope" "zzz" (by decide) (by decide)⟩

/-! ## Claim C3: the duplicate finder -/

/-- C3, counterexample: on the graph {foo 1.9.0, foo 1.10.0, bar 1.0.0}
`find_duplicates` returns precisely the two `foo` identities (omitting
`bar`), but ordered `foo 1.10.0` before `foo 1.9.0` — the string order of
the id — which is not sorted by full identity (name, then semantic
version, then source), since 1.9.0 precedes 1.10.0 as versions. -/
theorem c3_sorted_by_identity_counterexample :
    find_duplicates gDup = ["foo 1.10.0 (reg)", "foo 1.9.0 (reg)"] ∧
      specSortedByIdentity gDup (find_duplicates gDup) = false := by
  decide

/-- C3, amended: `find_duplicates` returns exactly the identities of
packages whose name is shared by more than one identity (all identities of
such a name included, single-identity names omitted), and the result is
sorted by the `PackageId` ordering — the lexicographic order of the id
strings — which need not coincide with (name, version, source) order. -/
theorem c3_find_duplicates_amended (g : TGraph)
    (_hnodup : (g.nodes.map Package.id).Nodup) :
    (∀ x, x ∈ find_duplicates g ↔
        ∃ p ∈ g.nodes, p.id = x ∧
          1 < ((g.nodes.filter fun q => q.name == p.name).map Package.id).length) ∧
      List.Chain' (fun a b => strLe a b = true) (find_duplicates g) := by
  constructor
  · intro x
    unfold find_duplicates
    rw [mem_sortBy]
    simp only [List.mem_map, List.mem_filter, List.length_map, decide_eq_true_eq]
    constructor
    · rintro ⟨p, ⟨hp, hlen⟩, he⟩
      exact ⟨p, hp, he, hlen⟩
    · rintro ⟨p, hp, he, hlen⟩
      exact ⟨p, ⟨hp, hlen⟩, he⟩
  · exact chain'_sortBy strLe_total _

theorem c3_find_duplicates_amended_witness :
    (gDup.nodes.map Package.id).Nodup ∧
      ((∀ x, x ∈ find_duplicates gDup ↔
          ∃ p ∈ gDup.nodes, p.id = x ∧
            1 < ((gDup.nodes.filter fun q => q.name == p.name).map Package.id).length) ∧
        List.Chain' (fun a b => strLe a b = true) (find_duplicates gDup)) :=
  ⟨by decide, c3_find_duplicates_amended gDup (by decide)⟩

/-! ## The `graph.rs` generation: `Graph::build` -/

/-- A dependency declaration as consulted by `graph.rs` (old cargo core):
name, kind and an optional exact platform restriction
(`only_for_platform`).  `Dependency::matches_id` is modelled as name
matching. -/
structure GDependency where
  name : String
  kind : DependencyKind
  only_for_platform : Option String
deriving DecidableEq, Repr

structure GPackage where
  id : CPackageId
  dependencies : List GDependency
deriving DecidableEq, Repr

structure GResolveDoc where
  packages : List GPackage
  deps : List (CPackageId × List CPackageId)
deriving DecidableEq, Repr

/-- The node/edge sets of `graph.rs`'s `Graph` (nodes are bare ids). -/
structure OGraph where
  nodeIds : List CPackageId
  edges : List MEdge
deriving DecidableEq, Repr

/-- petgraph's `update_edge`: replace the weight of the first existing
`s → t` edge, or append a new edge. -/
def updateEdge (s t : CPackageId) (k : DependencyKind) :
    List MEdge → List MEdge
  | [] => [⟨s, t, k⟩]
  | e :: rest =>
    if e.source == s && e.target == t then ⟨s, t, k⟩ :: rest
    else e :: updateEdge s t k rest

/-- The body of `Graph::build`'s `while` loop (`graph.rs` lines 32-58) for
one popped package: for each resolved dependency take the kind of the
*first* declaration that matches it, passes the root/non-root kind filter
and the platform filter (`.map(|d| d.kind()).next()`), and when one exists
insert the node if new, `update_edge`, and push the dependency
unconditionally. -/
def obuildStep (doc : GResolveDoc) (root : CPackageId)
    (kinds : List DependencyKind) (target : String) (pkgId : CPackageId)
    (g : OGraph) : Option (OGraph × List CPackageId) :=
  match doc.packages.find? (fun p => p.id == pkgId) with
  | none => none
  | some pkg =>
    some ((lookupDeps doc.deps pkgId).foldl
      (fun (st : OGraph × List CPackageId) depId =>
        let (g, pushes) := st
        let kindOpt :=
          ((pkg.dependencies.filter fun d =>
              d.name == depId.name &&
                ((pkgId == root && kinds.contains d.kind) ||
                  (!(pkgId == root) && d.kind == DependencyKind.normal)) &&
                (match d.only_for_platform with
                 | some t => t == target
                 | none => true)).head?).map (·.kind)
        match kindOpt with
        | none => (g, pushes)
        | some kind =>
          let g' :=
            if g.nodeIds.contains depId then g
            else { g with nodeIds := g.nodeIds ++ [depId] }
          ({ g' with edges := updateEdge pkgId depId kind g'.edges },
            pushes ++ [depId]))
      (g, []))

/-- The `while let Some(pkg_id) = pending.pop()` loop of `Graph::build`:
`pending` is a stack (`Vec::pop` takes the most recently pushed id). -/
def obuildLoop (doc : GResolveDoc) (root : CPackageId)
    (kinds : List DependencyKind) (target : String) :
    Nat → List CPackageId → OGraph → Option OGraph
  | 0, _, _ => none
  | _ + 1, [], g => some g
  | fuel + 1, pkgId :: rest, g =>
    match obuildStep doc root kinds target pkgId g with
    | none => none
    | some (g', pushes) =>
      obuildLoop doc root kinds target fuel (pushes.reverse ++ rest) g'

/-- `Graph::build` (`graph.rs` lines 14-61): seed with the root node and
run the worklist. -/
def ograph_build (doc : GResolveDoc) (root : CPackageId)
    (kinds : List DependencyKind) (target : String) (fuel : Nat) :
    Option OGraph :=
  obuildLoop doc root kinds target fuel [root] { nodeIds := [root], edges := [] }

/-- The `graph.rs`-era document declaring `b` under `a` with both the
Normal and the Build kind. -/
def gdocTwoKinds : GResolveDoc :=
  { packages :=
      [⟨idA, [⟨"b", .normal, none⟩, ⟨"b", .build, none⟩]⟩, ⟨idB, []⟩],
    deps := [(idA, [idB]), (idB, [])] }

/-! ## Claim C2: edge kinds in the built graph -/

/-- A fold whose body appends exactly one edge per element appends, in
total, one edge per element in order. -/
theorem foldl_edges_append {α : Type}
    (f : MGraph × List CPackageId → α → MGraph × List CPackageId)
    (k : α → MEdge)
    (hf : ∀ st a, ((f st a).1).edges = st.1.edges ++ [k a]) :
    ∀ (l : List α) (st : MGraph × List CPackageId),
      ((l.foldl f st).1).edges = st.1.edges ++ l.map k := by
  intro l
  induction l with
  | nil => intro st; simp
  | cons a as ih =>
    intro st
    simp only [List.foldl_cons, List.map_cons]
    rw [ih (f st a), hf st a]
    simp

/-- The inner loop of `build_graph` for one resolved dependency appends
exactly one edge per matching manifest declaration, carrying that
declaration's kind, in declaration order — on both the occupied and the
vacant node branch, with no lookup of previously recorded edges. -/
theorem processDep_edges (target : Option String) (maxDepth : Option Nat)
    (currentDepth : Nat) (pkg : CPackage) (raw depId : CPackageId)
    (g : MGraph) (pending : List CPackageId) :
    ((processDep target maxDepth currentDepth pkg raw depId (g, pending)).1).edges =
      g.edges ++ ((pkg.dependencies.filter fun d =>
        matchesIgnoringSource d raw && platformMatches d target).map
          fun d => MEdge.mk pkg.id depId d.kind) := by
  refine foldl_edges_append _ (fun d : CDependency => MEdge.mk pkg.id depId d.kind) ?_ _ _
  intro st dep
  rcases st with ⟨g', pending'⟩
  rcases h : g'.nodes.find? (fun n => n.id == depId) with _ | n
  · simp [h]
  · simp [h]

theorem mem_updateEdge {s t : CPackageId} {k : DependencyKind} {l : List MEdge}
    {x : MEdge} (hx : x ∈ updateEdge s t k l) : x ∈ l ∨ x = ⟨s, t, k⟩ := by
  induction l with
  | nil =>
    simp only [updateEdge, List.mem_singleton] at hx
    exact Or.inr hx
  | cons e rest ih =>
    simp only [updateEdge] at hx
    by_cases hc : (e.source == s && e.target == t) = true
    · rw [if_pos hc] at hx
      rcases List.mem_cons.mp hx with h | h
      · exact Or.inr h
      · exact Or.inl (List.mem_cons_of_mem _ h)
    · rw [if_neg hc] at hx
      rcases List.mem_cons.mp hx with h | h
      · exact Or.inl (h ▸ List.mem_cons_self _ _)
      · rcases ih h with h' | h'
        · exact Or.inl (List.mem_cons_of_mem _ h')
        · exact Or.inr h'

/-- petgraph's `update_edge` keeps the at-most-one-edge-per-ordered-pair
invariant: it replaces the first matching edge in place and appends only
when no edge of that pair exists. -/
theorem pairwise_updateEdge (s t : CPackageId) (k : DependencyKind) (l : List MEdge)
    (h : l.Pairwise fun e1 e2 => ¬ (e1.source = e2.source ∧ e1.target = e2.target)) :
    (updateEdge s t k l).Pairwise fun e1 e2 =>
      ¬ (e1.source = e2.source ∧ e1.target = e2.target) := by
  induction l with
  | nil => simp [updateEdge]
  | cons e rest ih =>
    rcases List.pairwise_cons.mp h with ⟨he, hrest⟩
    simp only [updateEdge]
    by_cases hc : (e.source == s && e.target == t) = true
    · rw [if_pos hc]
      simp only [Bool.and_eq_true, beq_iff_eq] at hc
      refine List.pairwise_cons.mpr ⟨?_, hrest⟩
      intro x hx
      have hex := he x hx
      rw [hc.1, hc.2] at hex
      exact hex
    · rw [if_neg hc]
      simp only [Bool.and_eq_true, beq_iff_eq] at hc
      refine List.pairwise_cons.mpr ⟨?_, ih hrest⟩
      intro x hx
      rcases mem_updateEdge hx with h' | h'
      · exact he x h'
      · subst h'
        intro hcon
        exact hc ⟨hcon.1, hcon.2⟩

theorem foldl_edges_pairwise {α : Type}
    (f : OGraph × List CPackageId → α → OGraph × List CPackageId)
    (hf : ∀ st a, st.1.edges.Pairwise
        (fun e1 e2 => ¬ (e1.source = e2.source ∧ e1.target = e2.target)) →
      ((f st a).1).edges.Pairwise
        (fun e1 e2 => ¬ (e1.source = e2.source ∧ e1.target = e2.target))) :
    ∀ (l : List α) (st : OGraph × List CPackageId),
      st.1.edges.Pairwise
        (fun e1 e2 => ¬ (e1.source = e2.source ∧ e1.target = e2.target)) →
      ((l.foldl f st).1).edges.Pairwise
        (fun e1 e2 => ¬ (e1.source = e2.source ∧ e1.target = e2.target)) := by
  intro l
  induction l with
  | nil => intro st h; simpa using h
  | cons a as ih => intro st h; exact ih (f st a) (hf st a h)

/-- One step of `Graph::build` preserves the pairwise-distinct-endpoints
invariant: every recorded edge goes through `update_edge`. -/
theorem obuildStep_pairwise {doc : GResolveDoc} {root : CPackageId}
    {kinds : List DependencyKind} {target : String} {pkgId : CPackageId}
    {g g' : OGraph} {pushes : List CPackageId}
    (h : obuildStep doc root kinds target pkgId g = some (g', pushes))
    (hg : g.edges.Pairwise
      fun e1 e2 => ¬ (e1.source = e2.source ∧ e1.target = e2.target)) :
    g'.edges.Pairwise
      fun e1 e2 => ¬ (e1.source = e2.source ∧ e1.target = e2.target) := by
  rcases hp : doc.packages.find? (fun p => p.id == pkgId) with _ | pkg
  · rw [obuildStep, hp] at h
    exact absurd h (by simp)
  · rw [obuildStep, hp] at h
    simp only [Option.some.injEq] at h
    have h1 := congrArg Prod.fst h
    dsimp only at h1
    rw [← h1]
    refine foldl_edges_pairwise _ ?_ _ _ hg
    intro st depId hst
    rcases st with ⟨g2, pushes2⟩
    dsimp only at hst ⊢
    rcases hk : ((pkg.dependencies.filter fun d =>
        d.name == depId.name &&
          ((pkgId == root && kinds.contains d.kind) ||
            (!(pkgId == root) && d.kind == DependencyKind.normal)) &&
          (match d.only_for_platform with
           | some t => t == target
           | none => true)).head?).map (·.kind) with _ | kind
    · rw [hk]
      exact hst
    · rw [hk]
      dsimp only
      by_cases hcont : g2.nodeIds.contains depId = true
      · simp only [if_pos hcont]
        exact pairwise_updateEdge _ _ _ _ hst
      · simp only [if_neg hcont]
        exact pairwise_updateEdge _ _ _ _ hst

theorem obuildLoop_pairwise {doc : GResolveDoc} {root : CPackageId}
    {kinds : List DependencyKind} {target : String} :
    ∀ (fuel : Nat) (pending : List CPackageId) (g g' : OGraph),
      obuildLoop doc root kinds target fuel pending g = some g' →
      g.edges.Pairwise
        (fun e1 e2 => ¬ (e1.source = e2.source ∧ e1.target = e2.target)) →
      g'.edges.Pairwise
        (fun e1 e2 => ¬ (e1.source = e2.source ∧ e1.target = e2.target)) := by
  intro fuel
  induction fuel with
  | zero => intro pending g g' h; simp [obuildLoop] at h
  | succ n ih =>
    intro pending g g' h hg
    cases pending with
    | nil =>
      simp only [obuildLoop, Option.some.injEq] at h
      exact h ▸ hg
    | cons p rest =>
      simp only [obuildLoop] at h
      rcases hs : obuildStep doc root kinds target p g with _ | pr
      · rw [hs] at h
        exact absurd h (by simp)
      · rcases pr with ⟨g2, pushes⟩
        simp only [hs] at h
        exact ih _ _ _ h (obuildStep_pairwise hs hg)

/-- `Graph::build` always produces a graph with at most one edge per
ordered (source, target) pair. -/
theorem ograph_build_pairwise {doc : GResolveDoc} {root : CPackageId}
    {kinds : List DependencyKind} {target : String} {fuel : Nat} {og : OGraph}
    (h : ograph_build doc root kinds target fuel = some og) :
    og.edges.Pairwise
      fun e1 e2 => ¬ (e1.source = e2.source ∧ e1.target = e2.target) := by
  rw [ograph_build] at h
  exact obuildLoop_pairwise fuel [root] _ og h (by simp)

/-- The number of `s → t` edges of kind `k` in a `main.rs` graph. -/
def edgeCountM (g : MGraph) (s t : CPackageId) (k : DependencyKind) : Nat :=
  (g.edges.filter fun e => e.source == s && e.target == t && e.kind == k).length

/-- C2, counterexample: both cited builders violate the claim.  `main.rs`
`build_graph` on a document attributing the Normal kind twice to the pair
(a, b) produces two parallel Normal edges, not one collapsed edge; and
`graph.rs` `Graph::build` on a document attributing Normal and Build to
(a, b) produces a single Normal edge, not one distinct edge per kind. -/
theorem c2_edge_dedup_counterexample :
    ((build_graph docSameKindTwice idA none none 10).map fun g =>
        edgeCountM g idA idB .normal) = some 2 ∧
      ((build_graph docSameKindTwice idA none none 10).map fun g =>
        edgeCountM g idA idB .normal) ≠ some 1 ∧
      (ograph_build gdocTwoKinds idA [.normal, .build] "host" 10).map OGraph.edges =
        some [⟨idA, idB, .normal⟩] := by
  decide

/-- C2, amended: in `main.rs` `build_graph`, for every document, package,
resolved dependency and graph state, the inner loop appends exactly one
edge per manifest declaration matching the dependency and the platform
filter, carrying that declaration's kind, in declaration order — so
distinct kinds stay distinct edges and repeated attributions of the same
kind yield one parallel edge per attribution, never collapsed; the older
`graph.rs` `Graph::build`, for every document it builds, keeps at most one
edge per ordered (source, target) pair.  In particular the Normal+Build
document yields edge counts (1, 1, 0) and renders `b` once in the
headerless normal group and once under `[build-dependencies]`; the
same-kind-twice document yields two parallel Normal edges; and `graph.rs`
on the Normal+Build document keeps the single edge of the first matching
declaration's kind, Normal. -/
theorem c2_edge_kinds_amended (target : Option String) (maxDepth : Option Nat)
    (currentDepth : Nat) (pkg : CPackage) (raw depId : CPackageId)
    (g : MGraph) (pending : List CPackageId) (doc : GResolveDoc)
    (root : CPackageId) (kinds : List DependencyKind) (gtarget : String)
    (fuel : Nat) (og : OGraph) :
    (((processDep target maxDepth currentDepth pkg raw depId
          (g, pending)).1).edges =
        g.edges ++ ((pkg.dependencies.filter fun d =>
          matchesIgnoringSource d raw && platformMatches d target).map
            fun d => MEdge.mk pkg.id depId d.kind)) ∧
      (ograph_build doc root kinds gtarget fuel = some og →
        og.edges.Pairwise fun e1 e2 =>
          ¬ (e1.source = e2.source ∧ e1.target = e2.target)) ∧
      ((build_graph docTwoKinds idA none none 10).map fun g =>
        (edgeCountM g idA idB .normal, edgeCountM g idA idB .build,
          edgeCountM g idA idB .development)) = some (1, 1, 0) ∧
      ((build_graph docTwoKinds idA none none 10).map fun g =>
        printTreeM g fmtMName .outgoing UTF8_SYMBOLS .indent false none idA 10) =
        some (.ok (some
          [Line.pkg "" "a" false,
           Line.pkg "└── " "b" false,
           Line.header "" "[build-dependencies]",
           Line.pkg "└── " "b" false])) ∧
      ((build_graph docSameKindTwice idA none none 10).map fun g =>
        edgeCountM g idA idB .normal) = some 2 ∧
      (ograph_build gdocTwoKinds idA [.normal, .build] "host" 10).map OGraph.edges =
        some [⟨idA, idB, .normal⟩] :=
  ⟨processDep_edges target maxDepth currentDepth pkg raw depId g pending,
   fun h => ograph_build_pairwise h,
   by decide, by decide, by decide, by decide⟩

/-! ## Claim C4: stop conditions and the truncation marker -/

/-- The graph `build_graph` produces from `docC4` with depth limit 2:
`d` is a duplicate first seen at depth 1. -/
def gC4built : MGraph :=
  { nodes := [⟨idA, 0, false⟩, ⟨idB, 1, false⟩, ⟨idD, 1, true⟩],
    edges := [⟨idA, idB, .normal⟩, ⟨idA, idD, .normal⟩, ⟨idB, idD, .normal⟩] }

/-- C4, counterexample: rendering `docC4`'s graph with depth limit 2 and
`show_all = false` reaches `d` under `b` at depth 2 — simultaneously at
the depth limit and a revisit (duplicate shown below its first-seen
depth) — and prints it *with* the ` (*)` marker (`star = true`), where the
claim requires the depth-limit stop to render it with no marker. -/
theorem c4_depth_limit_marker_counterexample :
    build_graph docC4 idA none (some 2) 10 = some gC4built ∧
      printTreeM gC4built fmtMName .outgoing UTF8_SYMBOLS .indent false
          (some 2) idA 10 =
        .ok (some
          [Line.pkg "" "a" false,
           Line.pkg "├── " "b" false,
           Line.pkg "│   └── " "d" true,
           Line.pkg "└── " "d" false]) ∧
      printDependency gC4built fmtMName .outgoing UTF8_SYMBOLS .indent false
          (some 2) 5 ⟨idD, 1, true⟩ [true, false] =
        some [Line.pkg "│   └── " "d" true] ∧
      atMaxDepth (some 2) [true, false] = true := by
  decide

/-- C4, amended: in `print_dependency` the ` (*)` marker is governed solely
by newness — `new = all || (!is_duplicate || depth ≤ depth_first_seen)` —
independently of the depth limit: every emitted node line carries the star
iff the node is not new, and each of the two stop conditions (not new, or
depth limit reached) independently renders the node as a leaf with no
children; hence a node that is both at the depth limit and a revisit
prints *with* the marker. -/
theorem c4_marker_and_stops_amended (g : MGraph) (format : MNode → String)
    (direction : EdgeDirection) (symbols : Symbols) (style : PrefixStyle)
    (all : Bool) (maxDepth : Option Nat) (node : MNode) (levels : List Bool)
    (fuel : Nat) :
    (∀ out,
        printDependency g format direction symbols style all maxDepth
            (fuel + 1) node levels = some out →
          ∃ rest,
            out = Line.pkg (mPkgPrefix style symbols levels) (format node)
              (!(all || (!node.is_duplicate ||
                decide (levels.length ≤ node.depth_first_seen)))) :: rest) ∧
      ((all || (!node.is_duplicate ||
            decide (levels.length ≤ node.depth_first_seen))) = false ∨
          atMaxDepth maxDepth levels = true →
        printDependency g format direction symbols style all maxDepth
            (fuel + 1) node levels =
          some [Line.pkg (mPkgPrefix style symbols levels) (format node)
            (!(all || (!node.is_duplicate ||
              decide (levels.length ≤ node.depth_first_seen))))]) := by
  constructor
  · intro out hout
    by_cases hc : (!(all || (!node.is_duplicate ||
        decide (levels.length ≤ node.depth_first_seen))) ||
          atMaxDepth maxDepth levels) = true
    · unfold printDependency at hout
      rw [if_pos hc] at hout
      exact ⟨[], by simpa using hout.symm⟩
    · unfold printDependency at hout
      rw [if_neg hc] at hout
      rcases h1 : printDependencyKind
          (printDependency g format direction symbols style all maxDepth fuel)
          symbols style .normal (mDepsOfKind g node direction .normal) levels with
        _ | l1
      · rw [h1] at hout
        exact absurd hout (by simp)
      · rcases h2 : printDependencyKind
            (printDependency g format direction symbols style all maxDepth fuel)
            symbols style .build (mDepsOfKind g node direction .build) levels with
          _ | l2
        · rw [h1, h2] at hout
          exact absurd hout (by simp)
        · rcases h3 : printDependencyKind
              (printDependency g format direction symbols style all maxDepth fuel)
              symbols style .development (mDepsOfKind g node direction .development)
              levels with
            _ | l3
          · rw [h1, h2, h3] at hout
            exact absurd hout (by simp)
          · rw [h1, h2, h3] at hout
            exact ⟨l1 ++ (l2 ++ l3), by simpa using hout.symm⟩
  · intro hstop
    have hc : (!(all || (!node.is_duplicate ||
        decide (levels.length ≤ node.depth_first_seen))) ||
          atMaxDepth maxDepth levels) = true := by
      rcases hstop with h | h
      · simp [h]
      · simp [h]
    unfold printDependency
    rw [if_pos hc]

theorem c4_marker_and_stops_amended_witness :
    (∀ out,
        printDependency gC4built fmtMName .outgoing UTF8_SYMBOLS .indent false
            (some 2) (4 + 1) ⟨idD, 1, true⟩ [true, false] = some out →
          ∃ rest,
            out = Line.pkg (mPkgPrefix .indent UTF8_SYMBOLS [true, false])
              (fmtMName ⟨idD, 1, true⟩)
              (!(false || (!(⟨idD, 1, true⟩ : MNode).is_duplicate ||
                decide ([true, false].length ≤
                  (⟨idD, 1, true⟩ : MNode).depth_first_seen)))) :: rest) ∧
      ((false || (!(⟨idD, 1, true⟩ : MNode).is_duplicate ||
            decide ([true, false].length ≤
              (⟨idD, 1, true⟩ : MNode).depth_first_seen))) = false ∨
          atMaxDepth (some 2) [true, false] = true →
        printDependency gC4built fmtMName .outgoing UTF8_SYMBOLS .indent false
            (some 2) (4 + 1) ⟨idD, 1, true⟩ [true, false] =
          some [Line.pkg (mPkgPrefix .indent UTF8_SYMBOLS [true, false])
            (fmtMName ⟨idD, 1, true⟩)
            (!(false || (!(⟨idD, 1, true⟩ : MNode).is_duplicate ||
              decide ([true, false].length ≤
                (⟨idD, 1, true⟩ : MNode).depth_first_seen))))]) :=
  c4_marker_and_stops_amended gC4built fmtMName .outgoing UTF8_SYMBOLS .indent
    false (some 2) ⟨idD, 1, true⟩ [true, false] 4

/-! ## Claim C1: termination of the `show_all` traversal -/

/-- Membership in the collected outgoing dependency bucket comes from an
edge of the graph whose source is the package. -/
theorem mem_depsOfKind_outgoing {g : TGraph} {pkg d : Package}
    {k : DependencyKind} (hd : d ∈ depsOfKind g pkg .outgoing k) :
    ∃ e ∈ g.edges, e.source = pkg.id ∧ e.kind = k ∧ d.id = e.target ∧
      d ∈ g.nodes := by
  unfold depsOfKind at hd
  rcases List.mem_filterMap.mp hd with ⟨e, he, hres⟩
  by_cases hc : (e.source == pkg.id && e.kind == k) = true
  · rw [if_pos hc] at hres
    simp only [Bool.and_eq_true, beq_iff_eq] at hc
    refine ⟨e, he, hc.1, hc.2, ?_, ?_⟩
    · have := List.find?_some hres
      simpa [beq_iff_eq] using this
    · exact List.mem_of_find?_eq_some hres
  · rw [if_neg hc] at hres
    exact absurd hres (by simp)

/-- If every child render succeeds (for every traversal state), the child
loop succeeds. -/
theorem renderChildren_isSome
    {rc : Package → List String → List Bool → Option (List Line × List String)}
    {ds : List Package}
    (h : ∀ d ∈ ds, ∀ v l, (rc d v l).isSome = true) :
    ∀ v l, (renderChildren rc ds v l).isSome = true := by
  induction ds with
  | nil => intro v l; rfl
  | cons d rest ih =>
    intro v l
    have h1 := h d (by simp) v (l ++ [!rest.isEmpty])
    rcases Option.isSome_iff_exists.mp h1 with ⟨⟨ls, v'⟩, he⟩
    have h2 := ih (fun d hd v l => h d (by simp [hd]) v l) v' l
    rcases Option.isSome_iff_exists.mp h2 with ⟨⟨ls2, v''⟩, he2⟩
    simp [renderChildren, he, he2]

/-- If every collected dependency renders successfully, the kind group
renders successfully. -/
theorem printDependencies_isSome (symbols : Symbols) (style : PrefixStyle)
    {rc : Package → List String → List Bool → Option (List Line × List String)}
    {g : TGraph} {direction : EdgeDirection} {kind : DependencyKind} {pkg : Package}
    (h : ∀ d ∈ depsOfKind g pkg direction kind, ∀ v l, (rc d v l).isSome = true) :
    ∀ v l, (printDependencies rc g direction symbols style kind pkg v l).isSome = true := by
  intro v l
  have hsorted : ∀ d ∈ sortBy (fun a b => strLe a.id b.id)
      (depsOfKind g pkg direction kind), ∀ v l, (rc d v l).isSome = true :=
    fun d hd' => h d (mem_sortBy.mp hd')
  have hr := renderChildren_isSome hsorted v l
  rcases Option.isSome_iff_exists.mp hr with ⟨⟨ls, v'⟩, he⟩
  by_cases hd : (depsOfKind g pkg direction kind).isEmpty = true
  · simp [printDependencies, hd]
  · rw [Bool.not_eq_true] at hd
    simp [printDependencies, hd, he]

/-- C1, amended-claim core: when the graph admits a rank function that
strictly decreases along every edge (in particular, when the dependency
graph is acyclic, as resolved graphs are), the `tree.rs` traversal from any
package succeeds once the fuel exceeds the package's rank — i.e. the
recursion depth is bounded and the render terminates, for `show_all` true
or false. -/
theorem printPackage_isSome_of_rank (g : TGraph) (format : Package → String)
    (symbols : Symbols) (style : PrefixStyle) (all : Bool)
    (rank : String → Nat)
    (hrank : ∀ e ∈ g.edges, rank e.target < rank e.source) :
    ∀ fuel pkg visited levels, rank pkg.id < fuel →
      (printPackage g format .outgoing symbols style all fuel pkg
        visited levels).isSome = true := by
  intro fuel
  induction fuel with
  | zero => intro pkg v l h; omega
  | succ f ih =>
    intro pkg visited levels hr
    have hchild : ∀ k, ∀ d ∈ depsOfKind g pkg .outgoing k, ∀ v l,
        (printPackage g format .outgoing symbols style all f d v l).isSome = true := by
      intro k d hd v l
      rcases mem_depsOfKind_outgoing hd with ⟨e, he, hsrc, _, htgt, _⟩
      have := hrank e he
      rw [hsrc] at this
      rw [← htgt] at this
      exact ih d v l (by omega)
    by_cases hb : (!(all || !(visited.contains pkg.id))) = true
    · simp only [printPackage]
      rw [if_pos hb]
      rfl
    · simp only [printPackage]
      rw [if_neg hb]
      rcases Option.isSome_iff_exists.mp
          (printDependencies_isSome symbols style (hchild .normal)
            (if all = true then visited
              else if visited.contains pkg.id = true then visited
              else pkg.id :: visited) levels) with ⟨⟨l1, v1⟩, he1⟩
      rcases Option.isSome_iff_exists.mp
          (printDependencies_isSome symbols style (hchild .build) v1 levels) with
        ⟨⟨l2, v2⟩, he2⟩
      rcases Option.isSome_iff_exists.mp
          (printDependencies_isSome symbols style (hchild .development) v2 levels) with
        ⟨⟨l3, v3⟩, he3⟩
      simp only [he1, he2, he3]
      rfl

/-- On the self-cycle graph, the `show_all = true` traversal exhausts any
amount of fuel: the recursion never returns. -/
theorem c1_cycle_exhausts_fuel :
    ∀ fuel (visited : List String) (levels : List Bool),
      printPackage gCycle fmtName .outgoing UTF8_SYMBOLS .indent true fuel pA
        visited levels = none := by
  intro fuel
  induction fuel with
  | zero => intro _ _; rfl
  | succ f ih =>
    intro visited levels
    have h1 : printDependencies
        (printPackage gCycle fmtName .outgoing UTF8_SYMBOLS .indent true f)
        gCycle .outgoing UTF8_SYMBOLS .indent .normal pA visited levels = none := by
      have hdeps : depsOfKind gCycle pA .outgoing .normal = [pA] := by decide
      unfold printDependencies
      rw [hdeps]
      simp [sortBy, insertLe, renderChildren, ih]
    unfold printPackage
    simp [h1]

/-- C1, counterexample: on a graph with a directed cycle reachable from
the root (a package depending on itself), the `Outgoing`, no-depth-limit,
`show_all = true` traversal never terminates — no amount of fuel suffices —
so the claim that every such render terminates is false: the recursion has
no guard independent of the (bypassed) visited set. -/
theorem c1_termination_counterexample :
    pA ∈ gCycle.nodes ∧
      (∀ fuel, printPackage gCycle fmtName .outgoing UTF8_SYMBOLS .indent true
        fuel pA [] [] = none) ∧
      ¬ ∃ fuel,
        (printPackage gCycle fmtName .outgoing UTF8_SYMBOLS .indent true fuel pA
          [] []).isSome = true := by
  refine ⟨by decide, fun fuel => c1_cycle_exhausts_fuel fuel [] [], ?_⟩
  rintro ⟨fuel, hs⟩
  rw [c1_cycle_exhausts_fuel fuel [] []] at hs
  exact absurd hs (by simp)

theorem printPackage_isSome_of_rank_witness :
    (∀ e ∈ gDiamond.edges,
        (fun i => if i = pA.id then 2 else if i = pD.id then 0 else 1) e.target <
          (fun i => if i = pA.id then 2 else if i = pD.id then 0 else 1) e.source) ∧
      ((fun i => if i = pA.id then 2 else if i = pD.id then 0 else 1) pA.id < 3 ∧
        (printPackage gDiamond fmtName .outgoing UTF8_SYMBOLS .indent true 3 pA
          [] []).isSome = true) :=
  ⟨by decide,
   by decide,
   printPackage_isSome_of_rank gDiamond fmtName UTF8_SYMBOLS .indent true
     (fun i => if i = pA.id then 2 else if i = pD.id then 0 else 1)
     (by decide) 3 pA [] [] (by decide)⟩

/-! ## Claim C6: grouping, ordering and headers of children -/

/-- C6, counterexample: the within-group child order is not the full
package identity order (name, then semantic version, then source).  With
`bar` depending on `foo 1.9.0` and `foo 1.10.0`, `print_dependencies`
sorts the normal bucket by the id string, placing `foo 1.10.0` before
`foo 1.9.0` in the rendered tree, while identity order puts `foo 1.9.0`
strictly first. -/
theorem c6_identity_order_counterexample :
    depsOfKind gC6 pBar .outgoing .normal = [pFoo19, pFoo110] ∧
      sortBy (fun a b : Package => strLe a.id b.id)
          (depsOfKind gC6 pBar .outgoing .normal) = [pFoo110, pFoo19] ∧
      print_tree gC6 pBar fmtId .outgoing UTF8_SYMBOLS .indent false 10 =
        some [Line.pkg "" "bar 1.0.0 (reg)" false,
              Line.pkg "├── " "foo 1.10.0 (reg)" false,
              Line.pkg "└── " "foo 1.9.0 (reg)" false] ∧
      specIdentityLe pFoo19 pFoo110 = true ∧
      specIdentityLe pFoo110 pFoo19 = false := by
  decide

/-- C6, amended: for every expanded node, (1) an empty kind bucket produces
no output at all; (2) within a group the children are processed in the
order sorted by the package id string — the `PackageId` ordering, which can
disagree with (name, semantic version, source) order — and that order is a
permutation of the collected bucket;
(3) a non-empty Build or Development group in the `Indent` style is
announced by exactly one `[build-dependencies]` / `[dev-dependencies]`
header line before its children; (4) the Normal group never gets a header,
nor does any group in the `None` or `Depth` styles; and (5) an expanded
(new) package emits its own line followed by the groups in the fixed order
Normal, Build, Development. -/
theorem c6_child_grouping
    (rc : Package → List String → List Bool → Option (List Line × List String))
    (g : TGraph) (format : Package → String) (direction : EdgeDirection)
    (symbols : Symbols) (style : PrefixStyle) (kind : DependencyKind)
    (pkg : Package) (visited : List String) (levels : List Bool) (fuel : Nat) :
    (depsOfKind g pkg direction kind = [] →
        printDependencies rc g direction symbols style kind pkg visited levels =
          some ([], visited)) ∧
      List.Chain' (fun a b : Package => strLe a.id b.id = true)
        (sortBy (fun a b : Package => strLe a.id b.id)
          (depsOfKind g pkg direction kind)) ∧
      (sortBy (fun a b : Package => strLe a.id b.id)
          (depsOfKind g pkg direction kind)).Perm
        (depsOfKind g pkg direction kind) ∧
      (∀ name, depsOfKind g pkg direction kind ≠ [] → style = .indent →
        kindHeaderLabel kind = some name →
        printDependencies rc g direction symbols style kind pkg visited levels =
          Option.map
            (fun r => (Line.header (headerPrefix symbols levels) name :: r.1, r.2))
            (renderChildren rc
              (sortBy (fun a b : Package => strLe a.id b.id)
                (depsOfKind g pkg direction kind)) visited levels)) ∧
      (depsOfKind g pkg direction kind ≠ [] →
        (kind = .normal ∨ style ≠ .indent) →
        printDependencies rc g direction symbols style kind pkg visited levels =
          renderChildren rc
            (sortBy (fun a b : Package => strLe a.id b.id)
              (depsOfKind g pkg direction kind)) visited levels) ∧
      (∀ (all : Bool) (l1 : List Line) (v1 : List String) (l2 : List Line)
          (v2 : List String) (l3 : List Line) (v3 : List String),
        (all || !(visited.contains pkg.id)) = true →
        printDependencies (printPackage g format direction symbols style all fuel)
            g direction symbols style .normal pkg
            (if all = true then visited
              else if visited.contains pkg.id = true then visited
              else pkg.id :: visited) levels = some (l1, v1) →
        printDependencies (printPackage g format direction symbols style all fuel)
            g direction symbols style .build pkg v1 levels = some (l2, v2) →
        printDependencies (printPackage g format direction symbols style all fuel)
            g direction symbols style .development pkg v2 levels = some (l3, v3) →
        printPackage g format direction symbols style all (fuel + 1) pkg
            visited levels =
          some (Line.pkg (pkgPrefix style symbols levels) (format pkg) false ::
            (l1 ++ (l2 ++ l3)), v3)) := by
  refine ⟨fun h => ?_, ?_, ?_, fun name h hs hk => ?_, fun h hk => ?_,
    fun all l1 v1 l2 v2 l3 v3 hnew h1 h2 h3 => ?_⟩
  · simp [printDependencies, h]
  · exact chain'_sortBy (fun a b : Package => strLe_total a.id b.id) _
  · exact sortBy_perm _ _
  · have hne : ¬ ((depsOfKind g pkg direction kind).isEmpty = true) := by
      simpa using h
    subst hs
    simp only [printDependencies, hk]
    rw [if_neg hne]
    rcases hr : renderChildren rc
        (sortBy (fun a b : Package => strLe a.id b.id)
          (depsOfKind g pkg direction kind)) visited levels with
      _ | ⟨ls, v'⟩
    · simp [hr]
    · simp [hr]
  · have hne : ¬ ((depsOfKind g pkg direction kind).isEmpty = true) := by
      simpa using h
    have hhead : (match style, kindHeaderLabel kind with
        | PrefixStyle.indent, some name =>
          [Line.header (headerPrefix symbols levels) name]
        | _, _ => ([] : List Line)) = [] := by
      rcases hk with hk | hk
      · subst hk
        cases style <;> rfl
      · cases style <;> cases kind <;> simp_all
    simp only [printDependencies, hhead]
    rw [if_neg hne]
    rcases hr : renderChildren rc
        (sortBy (fun a b : Package => strLe a.id b.id)
          (depsOfKind g pkg direction kind)) visited levels with
      _ | ⟨ls, v'⟩
    · simp [hr]
    · simp [hr]
  · have hb : ¬ ((!(all || !(visited.contains pkg.id))) = true) := by
      rw [hnew]
      simp
    have hstar : (!(all || !(visited.contains pkg.id))) = false := by
      rw [hnew]
      simp
    simp only [printPackage]
    rw [if_neg hb]
    simp only [h1, h2, h3, hstar]

/-! ## Claim C8: `Incoming` swaps the edge endpoint treated as the child -/

/-- With distinct node ids, looking a package's own id up yields it. -/
theorem find?_id_of_nodup {a : Package} :
    ∀ (l : List Package), (l.map Package.id).Nodup → a ∈ l →
      l.find? (fun p => p.id == a.id) = some a := by
  intro l
  induction l with
  | nil => simp
  | cons p rest ih =>
    intro hnd ha
    rcases List.mem_cons.mp ha with rfl | hmem
    · simp [List.find?]
    · have hnd' : p.id ∉ rest.map Package.id ∧ (rest.map Package.id).Nodup := by
        rw [List.map_cons, List.nodup_cons] at hnd
        exact hnd
      have hne : ¬ (p.id == a.id) = true := by
        simp only [beq_iff_eq]
        intro he
        have : a.id ∈ rest.map Package.id := List.mem_map_of_mem _ hmem
        rw [← he] at this
        exact hnd'.1 this
      have hstep : List.find? (fun q => q.id == a.id) (p :: rest) =
          List.find? (fun q => q.id == a.id) rest :=
        List.find?_cons_of_neg _ hne
      rw [hstep]
      exact ih hnd'.2 hmem

theorem nodeById_of_nodup {g : TGraph}
    (hnodup : (g.nodes.map Package.id).Nodup) {a : Package} (ha : a ∈ g.nodes) :
    nodeById g a.id = some a :=
  find?_id_of_nodup g.nodes hnodup ha

/-- Membership in the incoming bucket of `b` is exactly the existence of
the `a → b` edge of that kind. -/
theorem mem_depsOfKind_incoming_iff {g : TGraph} {a : Package}
    {k : DependencyKind} (hnodup : (g.nodes.map Package.id).Nodup)
    (ha : a ∈ g.nodes) (b : Package) :
    a ∈ depsOfKind g b .incoming k ↔ (⟨a.id, b.id, k⟩ : TEdge) ∈ g.edges := by
  constructor
  · intro hd
    unfold depsOfKind at hd
    rcases List.mem_filterMap.mp hd with ⟨e, he, hres⟩
    by_cases hc : (e.target == b.id && e.kind == k) = true
    · rw [if_pos hc] at hres
      simp only [Bool.and_eq_true, beq_iff_eq] at hc
      have hid : a.id = e.source := by
        have := List.find?_some hres
        simpa [beq_iff_eq] using this
      have : e = ⟨a.id, b.id, k⟩ := by
        cases e
        simp_all
      rw [← this]
      exact he
    · rw [if_neg hc] at hres
      exact absurd hres (by simp)
  · intro he
    unfold depsOfKind
    refine List.mem_filterMap.mpr ⟨⟨a.id, b.id, k⟩, he, ?_⟩
    simp only [beq_self_eq_true, Bool.and_self, if_pos]
    exact nodeById_of_nodup hnodup ha

/-- Membership in the outgoing bucket of `a` is exactly the existence of
the `a → b` edge of that kind. -/
theorem mem_depsOfKind_outgoing_iff {g : TGraph} {b : Package}
    {k : DependencyKind} (hnodup : (g.nodes.map Package.id).Nodup)
    (hb : b ∈ g.nodes) (a : Package) :
    b ∈ depsOfKind g a .outgoing k ↔ (⟨a.id, b.id, k⟩ : TEdge) ∈ g.edges := by
  constructor
  · intro hd
    rcases mem_depsOfKind_outgoing hd with ⟨e, he, hsrc, hk, htgt, _⟩
    have : e = ⟨a.id, b.id, k⟩ := by
      cases e
      simp_all
    rw [← this]
    exact he
  · intro he
    unfold depsOfKind
    refine List.mem_filterMap.mpr ⟨⟨a.id, b.id, k⟩, he, ?_⟩
    simp only [beq_self_eq_true, Bool.and_self, if_pos]
    exact nodeById_of_nodup hnodup hb

/-- Inside a successful child loop, every listed child was rendered
successfully and its lines are among the loop's lines. -/
theorem renderChildren_sub
    {rc : Package → List String → List Bool → Option (List Line × List String)} :
    ∀ {ds : List Package} {v : List String} {l : List Bool} {ls : List Line}
      {v' : List String},
      renderChildren rc ds v l = some (ls, v') → ∀ d ∈ ds,
        ∃ v0 l0 sub v1, rc d v0 l0 = some (sub, v1) ∧ sub ⊆ ls := by
  intro ds
  induction ds with
  | nil => intro v l ls v' h d hd; simp at hd
  | cons d0 rest ih =>
    intro v l ls v' h d hd
    rcases h1 : rc d0 v (l ++ [!rest.isEmpty]) with _ | ⟨s1, vA⟩
    · simp only [renderChildren, h1] at h
      exact absurd h (by simp)
    · rcases h2 : renderChildren rc rest vA l with _ | ⟨s2, vB⟩
      · simp only [renderChildren, h1, h2] at h
        exact absurd h (by simp)
      · simp only [renderChildren, h1, h2, Option.some.injEq, Prod.mk.injEq] at h
        rcases List.mem_cons.mp hd with rfl | hmem
        · exact ⟨v, l ++ [!rest.isEmpty], s1, vA, h1, by
            intro x hx
            rw [← h.1]
            exact List.mem_append_left _ hx⟩
        · rcases ih h2 d hmem with ⟨v0, l0, sub, v1, hrc, hsub⟩
          exact ⟨v0, l0, sub, v1, hrc, by
            intro x hx
            rw [← h.1]
            exact List.mem_append_right _ (hsub hx)⟩

/-- Inside a successful kind group, every bucket member was rendered
successfully and its lines are among the group's lines. -/
theorem printDependencies_sub
    {rc : Package → List String → List Bool → Option (List Line × List String)}
    {g : TGraph} {direction : EdgeDirection} {symbols : Symbols}
    {style : PrefixStyle} {kind : DependencyKind} {pkg : Package}
    {v : List String} {l : List Bool} {ls : List Line} {v' : List String}
    (h : printDependencies rc g direction symbols style kind pkg v l = some (ls, v'))
    {d : Package} (hd : d ∈ depsOfKind g pkg direction kind) :
    ∃ v0 l0 sub v1, rc d v0 l0 = some (sub, v1) ∧ sub ⊆ ls := by
  have hne : ¬ ((depsOfKind g pkg direction kind).isEmpty = true) := by
    rcases hdl : depsOfKind g pkg direction kind with _ | ⟨x, xs⟩
    · rw [hdl] at hd
      simp at hd
    · simp
  simp only [printDependencies] at h
  rw [if_neg hne] at h
  rcases hr : renderChildren rc
      (sortBy (fun a b : Package => strLe a.id b.id)
        (depsOfKind g pkg direction kind)) v l with _ | ⟨ls0, v0'⟩
  · simp only [hr] at h
    exact absurd h (by simp)
  · simp only [hr, Option.some.injEq, Prod.mk.injEq] at h
    rcases renderChildren_sub hr d (mem_sortBy.mpr hd) with
      ⟨v0, l0, sub, v1, hrc, hsub⟩
    exact ⟨v0, l0, sub, v1, hrc, by
      intro x hx
      rw [← h.1]
      exact List.mem_append_right _ (hsub hx)⟩

/-- A successful `print_package` call's first line is the package's own
line. -/
theorem printPackage_head {g : TGraph} {format : Package → String}
    {direction : EdgeDirection} {symbols : Symbols} {style : PrefixStyle}
    {all : Bool} {fuel : Nat} {pkg : Package} {v : List String}
    {l : List Bool} {ls : List Line} {v' : List String}
    (h : printPackage g format direction symbols style all (fuel + 1) pkg v l =
      some (ls, v')) :
    ∃ star rest,
      ls = Line.pkg (pkgPrefix style symbols l) (format pkg) star :: rest := by
  by_cases hb : (!(all || !(v.contains pkg.id))) = true
  · simp only [printPackage] at h
    rw [if_pos hb] at h
    simp only [Option.some.injEq, Prod.mk.injEq] at h
    exact ⟨true, [], by rw [← h.1, hb]⟩
  · simp only [printPackage] at h
    rw [if_neg hb] at h
    rcases h1 : printDependencies
        (printPackage g format direction symbols style all fuel) g direction
        symbols style .normal pkg
        (if all = true then v else if v.contains pkg.id = true then v
          else pkg.id :: v) l with _ | ⟨l1, v1⟩
    · simp only [h1] at h
      exact absurd h (by simp)
    · simp only [h1] at h
      rcases h2 : printDependencies
          (printPackage g format direction symbols style all fuel) g direction
          symbols style .build pkg v1 l with _ | ⟨l2, v2⟩
      · simp only [h2] at h
        exact absurd h (by simp)
      · simp only [h2] at h
        rcases h3 : printDependencies
            (printPackage g format direction symbols style all fuel) g direction
            symbols style .development pkg v2 l with _ | ⟨l3, v3⟩
        · simp only [h3] at h
          exact absurd h (by simp)
        · simp only [h3, Option.some.injEq, Prod.mk.injEq] at h
          exact ⟨!(all || !(v.contains pkg.id)), l1 ++ (l2 ++ l3), h.1.symm⟩

/-- One-step unfolding of `printPackage` at successor fuel, with the
recursive occurrence left folded. -/
theorem printPackage_succ (g : TGraph) (format : Package → String)
    (direction : EdgeDirection) (symbols : Symbols) (style : PrefixStyle)
    (all : Bool) (fuel : Nat) (pkg : Package) (visited : List String)
    (levels : List Bool) :
    printPackage g format direction symbols style all (fuel + 1) pkg visited
        levels =
      (if (!(all || !(visited.contains pkg.id))) = true then
        some ([Line.pkg (pkgPrefix style symbols levels) (format pkg)
            (!(all || !(visited.contains pkg.id)))],
          if all = true then visited
          else if visited.contains pkg.id = true then visited
          else pkg.id :: visited)
      else
        match printDependencies
            (printPackage g format direction symbols style all fuel) g direction
            symbols style .normal pkg
            (if all = true then visited
              else if visited.contains pkg.id = true then visited
              else pkg.id :: visited) levels with
        | none => none
        | some (l1, v1) =>
          match printDependencies
              (printPackage g format direction symbols style all fuel) g
              direction symbols style .build pkg v1 levels with
          | none => none
          | some (l2, v2) =>
            match printDependencies
                (printPackage g format direction symbols style all fuel) g
                direction symbols style .development pkg v2 levels with
            | none => none
            | some (l3, v3) =>
              some (Line.pkg (pkgPrefix style symbols levels) (format pkg)
                (!(all || !(visited.contains pkg.id))) :: (l1 ++ (l2 ++ l3)),
                v3)) := rfl

/-- C8: the `Incoming` direction strictly swaps which edge endpoint is
treated as the child: for every edge a → b of kind k, a is in b's incoming
child bucket (and conversely), a node is an incoming child of b exactly
when b is an outgoing child of it, and any successful `Incoming` render
rooted at b contains a line for a. -/
theorem c8_incoming_swaps_endpoints (g : TGraph) (a b : Package)
    (k : DependencyKind) (hnodup : (g.nodes.map Package.id).Nodup)
    (ha : a ∈ g.nodes) (hb : b ∈ g.nodes) :
    (a ∈ depsOfKind g b .incoming k ↔ (⟨a.id, b.id, k⟩ : TEdge) ∈ g.edges) ∧
      (a ∈ depsOfKind g b .incoming k ↔ b ∈ depsOfKind g a .outgoing k) ∧
      (∀ (format : Package → String) (symbols : Symbols) (style : PrefixStyle)
          (all : Bool) (fuel : Nat) (lines : List Line) (vs : List String),
        (⟨a.id, b.id, k⟩ : TEdge) ∈ g.edges →
        printPackage g format .incoming symbols style all (fuel + 2) b [] [] =
          some (lines, vs) →
        ∃ pre star, Line.pkg pre (format a) star ∈ lines) := by
  refine ⟨mem_depsOfKind_incoming_iff hnodup ha b, ?_, ?_⟩
  · rw [mem_depsOfKind_incoming_iff hnodup ha b,
      mem_depsOfKind_outgoing_iff hnodup hb a]
  · intro format symbols style all fuel lines vs hedge hrender
    have hmem : a ∈ depsOfKind g b .incoming k :=
      (mem_depsOfKind_incoming_iff hnodup ha b).mpr hedge
    have hbb : ¬ ((!(all || !(([] : List String).contains b.id))) = true) := by
      simp
    rw [printPackage_succ] at hrender
    rw [if_neg hbb] at hrender
    rcases h1 : printDependencies
        (printPackage g format .incoming symbols style all (fuel + 1)) g
        .incoming symbols style .normal b
        (if all = true then ([] : List String)
          else if ([] : List String).contains b.id = true then ([] : List String)
          else b.id :: ([] : List String)) ([] : List Bool) with _ | ⟨l1, v1⟩
    · simp only [h1] at hrender
      exact absurd hrender (by simp)
    · simp only [h1] at hrender
      rcases h2 : printDependencies
          (printPackage g format .incoming symbols style all (fuel + 1)) g
          .incoming symbols style .build b v1 ([] : List Bool) with _ | ⟨l2, v2⟩
      · simp only [h2] at hrender
        exact absurd hrender (by simp)
      · simp only [h2] at hrender
        rcases h3 : printDependencies
            (printPackage g format .incoming symbols style all (fuel + 1)) g
            .incoming symbols style .development b v2 ([] : List Bool) with
          _ | ⟨l3, v3⟩
        · simp only [h3] at hrender
          exact absurd hrender (by simp)
        · simp only [h3, Option.some.injEq, Prod.mk.injEq] at hrender
          have hsplit :
              ∃ sub, (∃ v0 l0 v1', printPackage g format .incoming symbols style
                  all (fuel + 1) a v0 l0 = some (sub, v1')) ∧
                (sub ⊆ l1 ∨ sub ⊆ l2 ∨ sub ⊆ l3) := by
            cases k with
            | normal =>
              rcases printDependencies_sub h1 hmem with ⟨v0, l0, sub, v1', hrc, hsub⟩
              exact ⟨sub, ⟨v0, l0, v1', hrc⟩, Or.inl hsub⟩
            | build =>
              rcases printDependencies_sub h2 hmem with ⟨v0, l0, sub, v1', hrc, hsub⟩
              exact ⟨sub, ⟨v0, l0, v1', hrc⟩, Or.inr (Or.inl hsub)⟩
            | development =>
              rcases printDependencies_sub h3 hmem with ⟨v0, l0, sub, v1', hrc, hsub⟩
              exact ⟨sub, ⟨v0, l0, v1', hrc⟩, Or.inr (Or.inr hsub)⟩
          rcases hsplit with ⟨sub, ⟨v0, l0, v1', hrc⟩, hsub⟩
          rcases printPackage_head hrc with ⟨star, rest, hsubeq⟩
          have hlm : Line.pkg (pkgPrefix style symbols l0) (format a) star ∈ sub := by
            rw [hsubeq]
            exact List.mem_cons_self _ _
          refine ⟨pkgPrefix style symbols l0, star, ?_⟩
          rw [← hrender.1]
          rcases hsub with hs | hs | hs
          · exact List.mem_cons_of_mem _ (List.mem_append_left _ (hs hlm))
          · exact List.mem_cons_of_mem _
              (List.mem_append_right _ (List.mem_append_left _ (hs hlm)))
          · exact List.mem_cons_of_mem _
              (List.mem_append_right _ (List.mem_append_right _ (hs hlm)))

theorem c8_incoming_swaps_endpoints_witness :
    (gDiamond.nodes.map Package.id).Nodup ∧ pB ∈ gDiamond.nodes ∧
      pD ∈ gDiamond.nodes ∧
      ((pB ∈ depsOfKind gDiamond pD .incoming .normal ↔
          (⟨pB.id, pD.id, .normal⟩ : TEdge) ∈ gDiamond.edges) ∧
        (pB ∈ depsOfKind gDiamond pD .incoming .normal ↔
          pD ∈ depsOfKind gDiamond pB .outgoing .normal) ∧
        (∀ (format : Package → String) (symbols : Symbols) (style : PrefixStyle)
            (all : Bool) (fuel : Nat) (lines : List Line) (vs : List String),
          (⟨pB.id, pD.id, .normal⟩ : TEdge) ∈ gDiamond.edges →
          printPackage gDiamond format .incoming symbols style all (fuel + 2) pD
            [] [] = some (lines, vs) →
          ∃ pre star, Line.pkg pre (format pB) star ∈ lines)) :=
  ⟨by decide, by decide, by decide,
   c8_incoming_swaps_endpoints gDiamond pB pD .normal (by decide) (by decide)
     (by decide)⟩

/-! ## Claim C9: the character set is cosmetic -/

theorem asciiChar_digitChar {d : Nat} (hd : d < 10) :
    asciiChar (digitChar d) = digitChar d := by
  interval_cases d <;> decide

theorem natDigits_digits :
    ∀ fuel n, ∀ c ∈ natDigits fuel n, ∃ d, d < 10 ∧ c = digitChar d := by
  intro fuel
  induction fuel with
  | zero => intro n c hc; simp [natDigits] at hc
  | succ f ih =>
    intro n c hc
    by_cases h0 : n = 0
    · simp [natDigits, h0] at hc
    · rw [natDigits, if_neg h0] at hc
      rcases List.mem_append.mp hc with hm | hm
      · exact ih (n / 10) c hm
      · refine ⟨n % 10, Nat.mod_lt _ (by omega), ?_⟩
        simpa using hm
theorem asciifyStr_natToStr (n : Nat) : asciifyStr (natToStr n) = natToStr n := by
  unfold natToStr
  by_cases h0 : n = 0
  · rw [if_pos h0]
    decide
  · rw [if_neg h0]
    unfold asciifyStr
    refine congrArg String.mk ?_
    have hmap : (natDigits n n).map asciiChar = (natDigits n n).map id :=
      List.map_congr_left fun c hc => by
        rcases natDigits_digits n n c hc with ⟨d, hd, rfl⟩
        exact asciiChar_digitChar hd
    rw [hmap, List.map_id]

theorem asciifyStr_append (a b : String) :
    asciifyStr (a ++ b) = asciifyStr a ++ asciifyStr b :=
  congrArg String.mk (by rw [strData_append, List.map_append])

theorem asciify_continuesColumn (c : Bool) :
    asciifyStr (continuesColumn UTF8_SYMBOLS c) = continuesColumn ASCII_SYMBOLS c := by
  cases c <;> decide

theorem asciify_concatStrs :
    ∀ ls : List String, asciifyStr (concatStrs ls) = concatStrs (ls.map asciifyStr) := by
  intro ls
  induction ls with
  | nil => rfl
  | cons s rest ih =>
    rw [concatStrs, asciifyStr_append, ih]
    rfl

theorem asciify_headerPrefix (levels : List Bool) :
    asciifyStr (headerPrefix UTF8_SYMBOLS levels) = headerPrefix ASCII_SYMBOLS levels := by
  unfold headerPrefix
  rw [asciify_concatStrs, List.map_map]
  refine congrArg concatStrs ?_
  exact List.map_congr_left fun c _ => asciify_continuesColumn c

theorem asciify_pkgPrefix (style : PrefixStyle) (levels : List Bool) :
    asciifyStr (pkgPrefix style UTF8_SYMBOLS levels) = pkgPrefix style ASCII_SYMBOLS levels := by
  cases style with
  | depth => exact asciifyStr_natToStr _
  | noIndent => rfl
  | indent =>
    have hcols : List.map (asciifyStr ∘ continuesColumn UTF8_SYMBOLS) levels.dropLast =
        List.map (continuesColumn ASCII_SYMBOLS) levels.dropLast :=
      List.map_congr_left fun c _ => asciify_continuesColumn c
    rcases hgl : levels.getLast? with _ | last
    · simp only [pkgPrefix, hgl]
      rfl
    · simp only [pkgPrefix, hgl]
      rw [asciifyStr_append, asciifyStr_append, asciifyStr_append, asciifyStr_append,
        asciify_concatStrs, List.map_map, hcols]
      congr 1
      cases last <;> decide

/-- The child loop translates pointwise when every child render does. -/
theorem renderChildren_asciify
    {rcA rcU : Package → List String → List Bool → Option (List Line × List String)}
    (hrc : ∀ d v l, rcA d v l =
      Option.map (fun r => (r.1.map asciifyLine, r.2)) (rcU d v l)) :
    ∀ (ds : List Package) (v : List String) (l : List Bool),
      renderChildren rcA ds v l =
        Option.map (fun r => (r.1.map asciifyLine, r.2)) (renderChildren rcU ds v l) := by
  intro ds
  induction ds with
  | nil => intro v l; rfl
  | cons d rest ih =>
    intro v l
    rcases hU : rcU d v (l ++ [!rest.isEmpty]) with _ | ⟨ls, v'⟩
    · have hA : rcA d v (l ++ [!rest.isEmpty]) = none := by
        rw [hrc, hU]
        rfl
      simp only [renderChildren, hU, hA]
      rfl
    · have hA : rcA d v (l ++ [!rest.isEmpty]) = some (ls.map asciifyLine, v') := by
        rw [hrc, hU]
        rfl
      rcases hU2 : renderChildren rcU rest v' l with _ | ⟨ls2, v''⟩
      · have hA2 := ih v' l
        rw [hU2] at hA2
        simp only [renderChildren, hU, hA, hU2, hA2]
        rfl
      · have hA2 := ih v' l
        rw [hU2] at hA2
        simp only [renderChildren, hU, hA, hU2, hA2]
        simp [List.map_append]

/-- A kind group translates when every child render does: the bucket, its
emptiness test and its sorting do not depend on the symbol set, and the
header's prefix translates glyph by glyph. -/
theorem printDependencies_asciify
    {rcA rcU : Package → List String → List Bool → Option (List Line × List String)}
    (hrc : ∀ d v l, rcA d v l =
      Option.map (fun r => (r.1.map asciifyLine, r.2)) (rcU d v l))
    (g : TGraph) (direction : EdgeDirection) (style : PrefixStyle)
    (kind : DependencyKind) (pkg : Package) :
    ∀ v l, printDependencies rcA g direction ASCII_SYMBOLS style kind pkg v l =
      Option.map (fun r => (r.1.map asciifyLine, r.2))
        (printDependencies rcU g direction UTF8_SYMBOLS style kind pkg v l) := by
  intro v l
  by_cases hd : (depsOfKind g pkg direction kind).isEmpty = true
  · simp only [printDependencies]
    rw [if_pos hd, if_pos hd]
    rfl
  · have hhead : (match style, kindHeaderLabel kind with
        | PrefixStyle.indent, some name =>
          [Line.header (headerPrefix ASCII_SYMBOLS l) name]
        | _, _ => ([] : List Line)) =
        (match style, kindHeaderLabel kind with
        | PrefixStyle.indent, some name =>
          [Line.header (headerPrefix UTF8_SYMBOLS l) name]
        | _, _ => ([] : List Line)).map asciifyLine := by
      cases style <;> cases kind <;> simp [kindHeaderLabel, asciifyLine, asciify_headerPrefix]
    simp only [printDependencies]
    rw [if_neg hd, if_neg hd]
    rcases hU : renderChildren rcU
        (sortBy (fun a b : Package => strLe a.id b.id)
          (depsOfKind g pkg direction kind)) v l with _ | ⟨ls, v'⟩
    · have hA := renderChildren_asciify hrc
        (sortBy (fun a b : Package => strLe a.id b.id)
          (depsOfKind g pkg direction kind)) v l
      rw [hU] at hA
      simp only [hU, hA]
      rfl
    · have hA := renderChildren_asciify hrc
        (sortBy (fun a b : Package => strLe a.id b.id)
          (depsOfKind g pkg direction kind)) v l
      rw [hU] at hA
      simp only [hU, hA, hhead]
      simp [List.map_append]

/-- C9: the glyph set is purely cosmetic.  For every graph, configuration
and fuel, rendering with the ASCII symbol table produces exactly the
UTF-8 rendering with each line's connector prefix translated glyph by
glyph (`│, ├ ↦ |`, `└ ↦ backtick`, `─ ↦ -`): the same nodes in the same
order, the same labels, stars, headers and visited set — traversal,
grouping and ordering are unchanged. -/
theorem c9_charset_only_changes_glyphs :
    ∀ (fuel : Nat) (g : TGraph) (format : Package → String)
      (direction : EdgeDirection) (style : PrefixStyle) (all : Bool)
      (pkg : Package) (visited : List String) (levels : List Bool),
      printPackage g format direction ASCII_SYMBOLS style all fuel pkg visited
          levels =
        Option.map (fun r => (r.1.map asciifyLine, r.2))
          (printPackage g format direction UTF8_SYMBOLS style all fuel pkg
            visited levels) := by
  intro fuel
  induction fuel with
  | zero => intro g format direction style all pkg visited levels; rfl
  | succ f ih =>
    intro g format direction style all pkg visited levels
    rw [printPackage_succ, printPackage_succ]
    have hrc : ∀ d v l,
        printPackage g format direction ASCII_SYMBOLS style all f d v l =
          Option.map (fun r => (r.1.map asciifyLine, r.2))
            (printPackage g format direction UTF8_SYMBOLS style all f d v l) :=
      fun d v l => ih g format direction style all d v l
    by_cases hb : (!(all || !(visited.contains pkg.id))) = true
    · rw [if_pos hb, if_pos hb]
      simp [asciifyLine, asciify_pkgPrefix]
    · rw [if_neg hb, if_neg hb]
      rcases h1 : printDependencies
          (printPackage g format direction UTF8_SYMBOLS style all f) g direction
          UTF8_SYMBOLS style .normal pkg
          (if all = true then visited
            else if visited.contains pkg.id = true then visited
            else pkg.id :: visited) levels with _ | ⟨l1, v1⟩
      · have hA1 := printDependencies_asciify hrc g direction style .normal pkg
          (if all = true then visited
            else if visited.contains pkg.id = true then visited
            else pkg.id :: visited) levels
        rw [h1] at hA1
        simp only [h1, hA1, Option.map_none']
      · have hA1 := printDependencies_asciify hrc g direction style .normal pkg
          (if all = true then visited
            else if visited.contains pkg.id = true then visited
            else pkg.id :: visited) levels
        rw [h1] at hA1
        rcases h2 : printDependencies
            (printPackage g format direction UTF8_SYMBOLS style all f) g direction
            UTF8_SYMBOLS style .build pkg v1 levels with _ | ⟨l2, v2⟩
        · have hA2 := printDependencies_asciify hrc g direction style .build pkg
            v1 levels
          rw [h2] at hA2
          simp only [h1, hA1, h2, hA2, Option.map_none', Option.map_some']
        · have hA2 := printDependencies_asciify hrc g direction style .build pkg
            v1 levels
          rw [h2] at hA2
          rcases h3 : printDependencies
              (printPackage g format direction UTF8_SYMBOLS style all f) g
              direction UTF8_SYMBOLS style .development pkg v2 levels with
            _ | ⟨l3, v3⟩
          · have hA3 := printDependencies_asciify hrc g direction style
              .development pkg v2 levels
            rw [h3] at hA3
            simp only [h1, hA1, h2, hA2, h3, hA3, Option.map_none', Option.map_some']
          · have hA3 := printDependencies_asciify hrc g direction style
              .development pkg v2 levels
            rw [h3] at hA3
            simp only [h1, hA1, h2, hA2, h3, hA3, Option.map_none', Option.map_some']
            simp [asciifyLine, asciify_pkgPrefix, List.map_append]

end CargoTree
